import Mathlib

/-!
Shallow embedding of the chat session engine of `src/services/chat.ts`
(ollama-gui).  Pure functions model the engine's operations; the Dexie
record store is modelled as an explicit `Store` value with monotonically
assigned ids (Dexie auto-increment keys start at 1); JavaScript `Date`
values are modelled as natural-number timestamps drawn from a `now`
counter carried in the engine state; the streamed backend response is
modelled as the list of chunk texts delivered to the `for await` loop,
together with an optional abort point (the number of chunks consumed
before the `AbortError` is raised at the next read).
-/

namespace OllamaGui

/-- Message roles, from the `role` field of `Message` in `database.ts`
(values observed in `chat.ts`: system, user, assistant). -/
inductive Role where
  | system
  | user
  | assistant
deriving DecidableEq, Repr

/-- Record kind `Message` (id assigned by the store; `chatId` foreign key;
`createdAt` a timestamp).  The optional `meta` field is omitted: no claim
mentions it and `chat.ts` only ever passes it through. -/
structure Message where
  id : Option Nat
  chatId : Nat
  role : Role
  content : String
  createdAt : Nat
deriving DecidableEq, Repr

/-- Record kind `Chat` (id assigned by the store). -/
structure Chat where
  id : Option Nat
  name : String
  model : String
  createdAt : Nat
deriving DecidableEq, Repr

/-- The embedded record store (Dexie `db` with tables `chats` and
`messages`), kept in insertion order with auto-increment keys starting
at 1. -/
structure Store where
  chats : List Chat
  messages : List Message
  nextChatId : Nat
  nextMessageId : Nat
deriving DecidableEq, Repr

/-- dbLayer.addChat: `db.chats.add(chat)` returns the assigned key. -/
def Store.addChat (s : Store) (c : Chat) : Store × Nat :=
  let cid := s.nextChatId
  ({ s with chats := s.chats ++ [{ c with id := some cid }], nextChatId := cid + 1 }, cid)

/-- dbLayer.getChat: `db.chats.get(chatId)`. -/
def Store.getChat (s : Store) (chatId : Nat) : Option Chat :=
  s.chats.find? (fun c => c.id == some chatId)

/-- dbLayer.getMessages: `db.messages.where('chatId').equals(chatId).toArray()`;
Dexie returns the matching records in primary-key order, which for this
store is insertion order. -/
def Store.getMessages (s : Store) (chatId : Nat) : List Message :=
  s.messages.filter (fun m => m.chatId == chatId)

/-- dbLayer.addMessage: `db.messages.add(message)` returns the assigned key. -/
def Store.addMessage (s : Store) (m : Message) : Store × Nat :=
  let mid := s.nextMessageId
  ({ s with messages := s.messages ++ [{ m with id := some mid }], nextMessageId := mid + 1 }, mid)

/-- dbLayer.updateMessage with a `{ content }` patch (the only message
update issued by `chat.ts`). -/
def Store.updateMessageContent (s : Store) (messageId : Nat) (content : String) : Store :=
  { s with
    messages := s.messages.map (fun m =>
      if m.id == some messageId then { m with content := content } else m) }

/-- dbLayer.updateChat with a `{ name }` patch (issued by renameChat). -/
def Store.updateChatName (s : Store) (chatId : Nat) (name : String) : Store :=
  { s with
    chats := s.chats.map (fun c =>
      if c.id == some chatId then { c with name := name } else c) }

/-- dbLayer.updateChat with a `{ model }` patch (issued by switchModel). -/
def Store.updateChatModel (s : Store) (chatId : Nat) (model : String) : Store :=
  { s with
    chats := s.chats.map (fun c =>
      if c.id == some chatId then { c with model := model } else c) }

/-- dbLayer.deleteChat: `db.chats.delete(chatId)`. -/
def Store.deleteChat (s : Store) (chatId : Nat) : Store :=
  { s with chats := s.chats.filter (fun c => c.id != some chatId) }

/-- dbLayer.deleteMessagesOfChat: `db.messages.where('chatId').equals(chatId).delete()`. -/
def Store.deleteMessagesOfChat (s : Store) (chatId : Nat) : Store :=
  { s with messages := s.messages.filter (fun m => m.chatId != chatId) }

/-- dbLayer.deleteMessage: `db.messages.delete(messageId)`. -/
def Store.deleteMessage (s : Store) (messageId : Nat) : Store :=
  { s with messages := s.messages.filter (fun m => m.id != some messageId) }

/-- Lookup in the `ongoingAiMessages` map (JS `Map.get`). -/
def mapGet (m : List (Nat × Message)) (k : Nat) : Option Message :=
  (m.find? (fun p => p.1 == k)).map (fun p => p.2)

/-- JS `Map.set`: replace the entry in place if the key is present,
append it otherwise. -/
def mapSet (m : List (Nat × Message)) (k : Nat) (v : Message) : List (Nat × Message) :=
  if (m.find? (fun p => p.1 == k)).isSome then
    m.map (fun p => if p.1 == k then (k, v) else p)
  else
    m ++ [(k, v)]

/-- JS `Map.delete`. -/
def mapDelete (m : List (Nat × Message)) (k : Nat) : List (Nat × Message) :=
  m.filter (fun p => p.1 != k)

/-- JS `arr.slice(-n)` for a non-negative `n`: for `n = 0` the start
index is `-0 = 0`, so the WHOLE array is returned; for `n > 0` the slice
starts at `max(length - n, 0)`, i.e. the last `min(n, length)` elements. -/
def jsSliceLast {α : Type} (xs : List α) (n : Nat) : List α :=
  if n = 0 then xs else xs.drop (xs.length - n)

/-- In-memory reactive state of `chat.ts` plus the configuration
collaborator (`currentModel`, `historyMessageLength` and the configured
system message live in `appConfig.ts`, outside the engine) and the `now`
clock used for `new Date()`. -/
structure EngineState where
  store : Store
  chats : List Chat
  activeChat : Option Chat
  messages : List Message
  systemPrompt : Option Message
  ongoing : List (Nat × Message)
  currentModel : String
  historyMessageLength : Option Nat
  systemMessageConfig : Option String
  now : Nat
deriving DecidableEq, Repr

/-- The argument of `ollama.chat` (model id and ordered message list). -/
structure ChatRequest where
  model : String
  history : List Message
deriving DecidableEq, Repr

/-- Lines 218-221 / 272-275 of chat.ts:
`let chatHistory = messages.value.slice(-(historyMessageLength.value ?? 0));
if (systemPrompt.value) chatHistory.unshift(systemPrompt.value)`. -/
def buildChatHistory (st : EngineState) : List Message :=
  let chatHistory := jsSliceLast st.messages (st.historyMessageLength.getD 0)
  match st.systemPrompt with
  | some p => p :: chatHistory
  | none => chatHistory

/-- switchModel(model): sets the configured current model; if there is an
active chat, persists the model onto it.  The in-memory chat list is not
refreshed (in JS the active chat may alias a list entry; this embedding
uses the fresh-copy semantics, which coincides with the source whenever
the model written equals the chat's current one, as in every call site
modelled here). -/
def switchModel (st : EngineState) (model : String) : EngineState :=
  let st1 := { st with currentModel := model }
  match st1.activeChat with
  | none => st1
  | some c =>
    { st1 with
      store := st1.store.updateChatModel (c.id.getD 0) model,
      activeChat := some { c with model := model } }

/-- switchChat(chatId): loads the chat from the store; if found, makes it
active, loads its messages, and switches the current model to the chat's
stored model.  Not found: no-op (the catch/log path). -/
def switchChat (st : EngineState) (chatId : Nat) : EngineState :=
  match st.store.getChat chatId with
  | none => st
  | some chat =>
    let st1 := { st with activeChat := some chat, messages := st.store.getMessages chatId }
    switchModel st1 chat.model

/-- addSystemMessage(content): requires an active chat and a truthy
content (`!content` is true for the empty string); persists and appends a
system message and records it as the captured system prompt. -/
def addSystemMessage (st : EngineState) (content : Option String) : EngineState :=
  match st.activeChat with
  | none => st
  | some chat =>
    match content with
    | none => st
    | some c =>
      if c = "" then st
      else
        let m : Message :=
          { id := none, chatId := chat.id.getD 0, role := Role.system,
            content := c, createdAt := st.now }
        let p := st.store.addMessage m
        let m1 := { m with id := some p.2 }
        { st with
          store := p.1, now := st.now + 1,
          messages := st.messages ++ [m1], systemPrompt := some m1 }

/-- startNewChat(name): persists a chat with the current model and the
current time, appends it to the in-memory list, makes it active with an
empty message list, then injects the configured system message. -/
def startNewChat (st : EngineState) (name : String) : EngineState :=
  let newChat : Chat :=
    { id := none, name := name, model := st.currentModel, createdAt := st.now }
  let p := st.store.addChat newChat
  let newChat1 := { newChat with id := some p.2 }
  let st1 :=
    { st with
      store := p.1, now := st.now + 1,
      chats := st.chats ++ [newChat1],
      activeChat := some newChat1, messages := [] }
  addSystemMessage st1 st1.systemMessageConfig

/-- renameChat(newName): requires an active chat; writes the new name
onto the active chat and into the store, then refreshes the full chat
list from the store. -/
def renameChat (st : EngineState) (newName : String) : EngineState :=
  match st.activeChat with
  | none => st
  | some c =>
    let store1 := st.store.updateChatName (c.id.getD 0) newName
    { st with
      activeChat := some { c with name := newName },
      store := store1, chats := store1.chats }

/-- One iteration of the `for await (const part of response)` loop
(lines 229-238 / 283-292): look up the tracked in-flight message for the
stream's chat; if present, append the chunk to its content, persist the
content, and refresh the visible message list from the store when the
stream's chat is still the active chat. -/
def streamChunk (st : EngineState) (currentChatId : Nat) (chunk : String) : EngineState :=
  match mapGet st.ongoing currentChatId with
  | none => st
  | some aiMessage =>
    let aiMessage1 := { aiMessage with content := aiMessage.content ++ chunk }
    let store1 := st.store.updateMessageContent (aiMessage1.id.getD 0) aiMessage1.content
    let st1 :=
      { st with store := store1, ongoing := mapSet st.ongoing currentChatId aiMessage1 }
    if st1.activeChat.bind Chat.id == some currentChatId then
      { st1 with messages := store1.getMessages currentChatId }
    else st1

/-- The streaming loop over the delivered chunks. -/
def runStream (st : EngineState) (currentChatId : Nat) (chunks : List String) : EngineState :=
  chunks.foldl (fun s c => streamChunk s currentChatId c) st

/-- Lines 207-240 of addUserMessage, duplicated verbatim at lines 261-294
of regenerateResponse: create and persist an empty assistant message,
register it in the in-flight map, append it to the visible list, build
the bounded history, open the stream, consume it, and clear the in-flight
entry on completion.  `abortAfter = some k` models `abort()` being called
after `k` chunks were consumed: `abort()` clears the whole in-flight map
and aborts the backend stream, so the next read raises `AbortError`,
whose handler deletes the chat's entry and returns without error.
Returns the new state and the request sent to the backend. -/
def generateAiReply (st : EngineState) (currentChatId : Nat) (chunks : List String)
    (abortAfter : Option Nat) : EngineState × Option ChatRequest :=
  let aiMessage : Message :=
    { id := none, chatId := currentChatId, role := Role.assistant,
      content := "", createdAt := st.now }
  let p := st.store.addMessage aiMessage
  let aiMessage1 := { aiMessage with id := some p.2 }
  let st1 :=
    { st with
      store := p.1, now := st.now + 1,
      ongoing := mapSet st.ongoing currentChatId aiMessage1,
      messages := st.messages ++ [aiMessage1] }
  let req : ChatRequest := { model := st1.currentModel, history := buildChatHistory st1 }
  match abortAfter with
  | none =>
    let st2 := runStream st1 currentChatId chunks
    ({ st2 with ongoing := mapDelete st2.ongoing currentChatId }, some req)
  | some k =>
    let st2 := runStream st1 currentChatId (chunks.take k)
    let st3 := { st2 with ongoing := [] }
    ({ st3 with ongoing := mapDelete st3.ongoing currentChatId }, some req)

/-- addUserMessage(content): no active chat: warn and return (nothing
persisted).  Otherwise persist and append the user message, then run the
shared assistant-reply block. -/
def addUserMessage (st : EngineState) (content : String) (chunks : List String)
    (abortAfter : Option Nat) : EngineState × Option ChatRequest :=
  match st.activeChat with
  | none => (st, none)
  | some activeChat =>
    let currentChatId := activeChat.id.getD 0
    let message : Message :=
      { id := none, chatId := currentChatId, role := Role.user,
        content := content, createdAt := st.now }
    let p := st.store.addMessage message
    let message1 := { message with id := some p.2 }
    let st1 :=
      { st with store := p.1, now := st.now + 1, messages := st.messages ++ [message1] }
    generateAiReply st1 currentChatId chunks abortAfter

/-- regenerateResponse(): requires an active chat; if the last visible
message exists and is an assistant message, delete it from the store (when
it has an id) and pop it from the visible list; then, UNCONDITIONALLY, run
the shared assistant-reply block (the source does not return early when
the last message is not an assistant message). -/
def regenerateResponse (st : EngineState) (chunks : List String)
    (abortAfter : Option Nat) : EngineState × Option ChatRequest :=
  match st.activeChat with
  | none => (st, none)
  | some activeChat =>
    let currentChatId := activeChat.id.getD 0
    let st1 :=
      match st.messages.getLast? with
      | some message =>
        if message.role == Role.assistant then
          let store1 :=
            match message.id with
            | some mid => st.store.deleteMessage mid
            | none => st.store
          { st with store := store1, messages := st.messages.dropLast }
        else st
      | none => st
    generateAiReply st1 currentChatId chunks abortAfter

/-- Stable insertion (descending by `createdAt`): the element is placed
before the first element with a strictly smaller `createdAt`, so elements
with equal timestamps keep their relative order. -/
def insertByCreatedDesc (c : Chat) : List Chat → List Chat
  | [] => [c]
  | x :: xs =>
    if c.createdAt < x.createdAt then x :: insertByCreatedDesc c xs
    else c :: x :: xs

/-- The computed `sortedChats`: the chat list sorted by `createdAt`
descending.  JS `Array.prototype.sort` is a stable sort with the given
comparator `(a, b) => b.createdAt - a.createdAt`; any stable sorting
algorithm models it, and a structural insertion sort is used here. -/
def sortedChats (chats : List Chat) : List Chat :=
  chats.foldr insertByCreatedDesc []

/-- deleteChat(chatId): delete the chat and its messages from the store,
filter it out of the in-memory list; if it was the active chat, switch to
the first chat of the sorted view, or start a fresh "New chat" when none
remain. -/
def deleteChat (st : EngineState) (chatId : Nat) : EngineState :=
  let store1 := (st.store.deleteChat chatId).deleteMessagesOfChat chatId
  let st1 :=
    { st with store := store1, chats := st.chats.filter (fun c => c.id != some chatId) }
  if st1.activeChat.bind Chat.id == some chatId then
    match sortedChats st1.chats with
    | c :: _ => switchChat st1 (c.id.getD 0)
    | [] => startNewChat st1 "New chat"
  else st1

/-- The export bundle shape: `Object.assign({ messages }, chat)` carries
the chat's own fields plus its message list.  `createdAt` is optional
here because importChats also accepts bundles without one (a `Date` is
always truthy in JS, so an exported `createdAt` is modelled as `some`). -/
structure ChatExport where
  id : Option Nat
  name : String
  model : String
  createdAt : Option Nat
  messages : List Message
deriving DecidableEq, Repr

/-- exportChats(): for every persisted chat with a truthy id (`!chat?.id`
skips a missing id and the key 0, which the store never assigns), bundle
the chat with its messages.  The `Promise.all` over `chats.map` is
modelled as completing in list order. -/
def exportChats (s : Store) : List ChatExport :=
  s.chats.filterMap (fun chat =>
    match chat.id with
    | none => none
    | some cid =>
      if cid = 0 then none
      else
        some { id := chat.id, name := chat.name, model := chat.model,
               createdAt := some chat.createdAt, messages := s.getMessages cid })

/-- The inner `chatData.messages.forEach` of importChats: each message is
re-persisted under the new chat id with the bundle's role, content and
timestamp (insertion requests are issued in list order). -/
def importMessages (s : Store) (cid : Nat) (ms : List Message) : Store :=
  ms.foldl (fun s2 messageData =>
    (s2.addMessage
      { id := none, chatId := cid, role := messageData.role,
        content := messageData.content, createdAt := messageData.createdAt }).1) s

/-- One bundle of importChats: the chat's timestamp is
`new Date(chatData?.createdAt || chatData.messages[0].createdAt)`; when
`createdAt` is absent and the message list is empty, reading `createdAt`
of `undefined` raises a TypeError inside the async callback (the bundle
is not imported), modelled as `none`.  Otherwise the chat is persisted
with a fresh id, pushed onto the in-memory list, and its messages are
re-persisted under the new id. -/
def importOne (st : EngineState) (chatData : ChatExport) : Option EngineState :=
  let ts? : Option Nat :=
    match chatData.createdAt with
    | some t => some t
    | none => (chatData.messages.get? 0).map Message.createdAt
  match ts? with
  | none => none
  | some ts =>
    let chat : Chat :=
      { id := none, name := chatData.name, model := chatData.model, createdAt := ts }
    let p := st.store.addChat chat
    let chat1 := { chat with id := some p.2 }
    let store1 := importMessages p.1 p.2 chatData.messages
    some { st with store := store1, chats := st.chats ++ [chat1] }

/-- importChats(jsonData): the bundles are processed independently (the
source fires one async callback per bundle); a bundle whose timestamp
computation faults contributes nothing to the state, and the Boolean
records whether any bundle raised the TypeError (surfacing as an
unhandled promise rejection, never as a return value). -/
def importChats (st : EngineState) (jsonData : List ChatExport) : EngineState × Bool :=
  jsonData.foldl (fun acc chatData =>
    match importOne acc.1 chatData with
    | some st2 => (st2, acc.2)
    | none => (acc.1, true)) (st, false)

/-- The initialize() operation: load all chats; if any exist switch to
the head of the sorted view (the list is non-empty exactly when the
sorted view is), otherwise start a chat named "New chat". -/
def initEngine (st : EngineState) : EngineState :=
  let st1 := { st with chats := st.store.chats }
  match sortedChats st1.chats with
  | c :: _ => switchChat st1 (c.id.getD 0)
  | [] => startNewChat st1 "New chat"

/-- Concatenation of streamed chunk texts in arrival order. -/
def joinChunks : List String → String
  | [] => ""
  | c :: cs => c ++ joinChunks cs

/-- The chunks actually consumed by the streaming loop: all of them when
the stream completes, the first `k` when it is aborted after `k`. -/
def deliveredChunks (chunks : List String) (abortAfter : Option Nat) : List String :=
  match abortAfter with
  | none => chunks
  | some k => chunks.take k

/-- The chat-lifecycle operations quantified over by the invariant claim. -/
inductive ChatOp where
  | newChat : String → ChatOp
  | switchTo : Nat → ChatOp
  | delete : Nat → ChatOp
deriving DecidableEq, Repr

/-- Apply one lifecycle operation. -/
def applyOp (st : EngineState) : ChatOp → EngineState
  | ChatOp.newChat name => startNewChat st name
  | ChatOp.switchTo cid => switchChat st cid
  | ChatOp.delete cid => deleteChat st cid

/-- Apply a sequence of lifecycle operations, left to right. -/
def applyOps (st : EngineState) (ops : List ChatOp) : EngineState :=
  ops.foldl applyOp st

/-- The in-memory chat list mirrors the store's chat table. -/
abbrev ChatsSynced (st : EngineState) : Prop :=
  st.chats = st.store.chats

/-- Every stored chat carries a store-assigned key below the allocator. -/
abbrev ChatIdsValid (st : EngineState) : Prop :=
  ∀ c ∈ st.store.chats, c.id.isSome ∧ c.id.getD 0 < st.store.nextChatId

/-- Stored chat keys are pairwise distinct. -/
abbrev ChatIdsNodup (st : EngineState) : Prop :=
  (st.store.chats.map Chat.id).Nodup

/-- The active chat, when set, is an element of the in-memory list. -/
abbrev ActiveMem (st : EngineState) : Prop :=
  match st.activeChat with
  | some a => a ∈ st.chats
  | none => True

/-- The visible message list belongs to the active chat (and is empty
when no chat is active). -/
abbrev MessagesSynced (st : EngineState) : Prop :=
  match st.activeChat with
  | some a => ∀ m ∈ st.messages, some m.chatId = a.id
  | none => st.messages = []

/-- Every stored message carries a store-assigned key below the allocator. -/
abbrev MessageIdsValid (st : EngineState) : Prop :=
  ∀ m ∈ st.store.messages, m.id.isSome ∧ m.id.getD 0 < st.store.nextMessageId

/-- The state invariant for the chat-lifecycle claim: list/store sync,
valid and distinct chat keys, and membership of the active chat. -/
abbrev EngineInv (st : EngineState) : Prop :=
  ChatsSynced st ∧ ChatIdsValid st ∧ ChatIdsNodup st ∧ ActiveMem st

/-- A one-chat, one-message engine state used as a concrete test vehicle:
chat 1 is active, holds one user message, the configured history length
is 0 and no system prompt is captured. -/
abbrev exChat : Chat :=
  { id := some 1, name := "A", model := "m", createdAt := 5 }

/-- The single persisted user message of `exState`. -/
abbrev exMsg : Message :=
  { id := some 1, chatId := 1, role := Role.user, content := "hi", createdAt := 5 }

/-- See `exChat`. -/
abbrev exState : EngineState :=
  { store := { chats := [exChat], messages := [exMsg], nextChatId := 2, nextMessageId := 2 },
    chats := [exChat], activeChat := some exChat, messages := [exMsg],
    systemPrompt := none, ongoing := [], currentModel := "m",
    historyMessageLength := some 0, systemMessageConfig := none, now := 10 }

/-- A bundle with no `createdAt` and no messages: the shape on which
importChats faults. -/
abbrev exBadBundle : ChatExport :=
  { id := none, name := "b", model := "m", createdAt := none, messages := [] }

/-- An engine state with no active chat. -/
abbrev exNoActive : EngineState :=
  { store := { chats := [], messages := [], nextChatId := 1, nextMessageId := 1 },
    chats := [], activeChat := none, messages := [],
    systemPrompt := none, ongoing := [], currentModel := "m",
    historyMessageLength := none, systemMessageConfig := none, now := 0 }

/-- A second chat, older than `exChat`, for the deletion scenario. -/
abbrev chatB : Chat := { id := some 2, name := "B", model := "m", createdAt := 3 }

/-- A two-chat state where chat 1 is active; deleting it must activate `chatB`. -/
abbrev exState2 : EngineState :=
  { store := { chats := [exChat, chatB], messages := [exMsg], nextChatId := 3, nextMessageId := 2 },
    chats := [exChat, chatB], activeChat := some exChat, messages := [exMsg],
    systemPrompt := none, ongoing := [], currentModel := "m",
    historyMessageLength := some 0, systemMessageConfig := none, now := 10 }

/-- Map lookup on a singleton in-flight map. -/
theorem mapGet_singleton (cid : Nat) (am : Message) :
    mapGet [(cid, am)] cid = some am := by
  simp [mapGet, List.find?]

/-- Map set replaces the entry of an existing key in place. -/
theorem mapSet_singleton (cid : Nat) (am v : Message) :
    mapSet [(cid, am)] cid v = [(cid, v)] := by
  simp [mapSet, List.find?]

/-- Map set on the empty map appends the entry. -/
theorem mapSet_nil (cid : Nat) (v : Message) : mapSet [] cid v = [(cid, v)] := by
  simp [mapSet, List.find?]

/-- Deleting the only key empties the map. -/
theorem mapDelete_singleton (cid : Nat) (v : Message) : mapDelete [(cid, v)] cid = [] := by
  simp [mapDelete]

/-- Unfolding lemma for chunk concatenation. -/
theorem joinChunks_cons (c : String) (cs : List String) :
    joinChunks (c :: cs) = c ++ joinChunks cs := rfl

/-- Persisting new content for the message with key `mid` rewrites only that message when no earlier message shares the key. -/
theorem updateContent_append (pre : List Message) (am : Message) (mid : Nat) (s : Store)
    (h5 : s.messages = pre ++ [am]) (h2 : am.id = some mid)
    (h6 : ∀ m ∈ pre, m.id ≠ some mid) (t : String) :
    (s.updateMessageContent mid t).messages = pre ++ [{ am with content := t }] := by
  have hpre : pre.map (fun m => if m.id == some mid then { m with content := t } else m) = pre := by
    have := List.map_congr_left (l := pre)
      (f := fun m => if m.id == some mid then { m with content := t } else m) (g := id)
      (fun m hm => by
        have : (m.id == some mid) = false := by
          simp only [beq_eq_false_iff_ne, ne_eq]
          exact h6 m hm
        simp [this])
    simpa using this
  simp only [Store.updateMessageContent, h5, List.map_append]
  rw [hpre]
  simp [h2]

/-- Behavior of the streaming loop when the in-flight map tracks exactly the stream's chat, the tracked message is the last stored one, and the chat is active: every chunk is appended to the tracked message and persisted, nothing else in the store changes, and the visible list is refreshed from the store after each chunk. -/
theorem runStream_spec (chunks : List String) :
    ∀ (st : EngineState) (cid mid : Nat) (pre : List Message) (am : Message),
    st.ongoing = [(cid, am)] →
    am.id = some mid →
    am.chatId = cid →
    st.activeChat.bind Chat.id = some cid →
    st.store.messages = pre ++ [am] →
    (∀ m ∈ pre, m.id ≠ some mid) →
    (runStream st cid chunks).store.messages
        = pre ++ [{ am with content := am.content ++ joinChunks chunks }] ∧
    (runStream st cid chunks).ongoing
        = [(cid, { am with content := am.content ++ joinChunks chunks })] ∧
    (runStream st cid chunks).activeChat = st.activeChat ∧
    (runStream st cid chunks).chats = st.chats ∧
    (runStream st cid chunks).store.chats = st.store.chats ∧
    (runStream st cid chunks).store.nextChatId = st.store.nextChatId ∧
    (runStream st cid chunks).store.nextMessageId = st.store.nextMessageId ∧
    (runStream st cid chunks).systemPrompt = st.systemPrompt ∧
    (runStream st cid chunks).now = st.now ∧
    (chunks = [] → (runStream st cid chunks).messages = st.messages) ∧
    (chunks ≠ [] →
      (runStream st cid chunks).messages
        = (runStream st cid chunks).store.getMessages cid) := by
  induction chunks with
  | nil =>
    intro st cid mid pre am h1 h2 h3 h4 h5 h6
    have ham : ({ am with content := am.content ++ joinChunks [] } : Message) = am := by
      simp [joinChunks]
    rw [ham]
    simp [runStream, h1, h5]
  | cons c cs ih =>
    intro st cid mid pre am h1 h2 h3 h4 h5 h6
    have hstep : streamChunk st cid c =
        { st with
          store := st.store.updateMessageContent mid (am.content ++ c),
          ongoing := [(cid, { am with content := am.content ++ c })],
          messages := (st.store.updateMessageContent mid (am.content ++ c)).getMessages cid } := by
      simp [streamChunk, h1, mapGet_singleton, mapSet_singleton, h2, h4]
    have hrun : runStream st cid (c :: cs) = runStream (streamChunk st cid c) cid cs := rfl
    have hmsg1 := updateContent_append pre am mid st.store h5 h2 h6 (am.content ++ c)
    have hih := ih (streamChunk st cid c) cid mid pre { am with content := am.content ++ c }
      (by rw [hstep]) (by simpa using h2) (by simpa using h3)
      (by rw [hstep]; exact h4)
      (by rw [hstep]; exact hmsg1) h6
    have hcontent :
        ({ am with content := am.content ++ c } : Message).content ++ joinChunks cs
          = am.content ++ joinChunks (c :: cs) := by
      simp [joinChunks_cons, String.append_assoc]
    rw [hrun]
    obtain ⟨a1, a2, a3, a4, a5, a6, a7, a8, a9, a10, a11⟩ := hih
    refine ⟨?_, ?_, ?_, ?_, ?_, ?_, ?_, ?_, ?_, ?_, ?_⟩
    · rw [a1, hcontent]
    · rw [a2, hcontent]
    · rw [a3, hstep]
    · rw [a4, hstep]
    · rw [a5, hstep]
      simp [Store.updateMessageContent]
    · rw [a6, hstep]
      simp [Store.updateMessageContent]
    · rw [a7, hstep]
      simp [Store.updateMessageContent]
    · rw [a8, hstep]
    · rw [a9, hstep]
    · intro h; exact absurd h (by simp)
    · intro _
      rcases Decidable.em (cs = []) with hcs | hcs
      · subst hcs
        have hr2 : runStream (streamChunk st cid c) cid [] = streamChunk st cid c := rfl
        rw [hr2, hstep]
      · exact a11 hcs

/-- Behavior of the shared assistant-reply block (lines 207-240 and 261-294 of chat.ts) from a state with an empty in-flight map: one assistant message is persisted, created empty and left holding the concatenation of the delivered chunks; the request carries the model and the bounded history computed after the insertion; the in-flight entry is cleared on completion and on abort alike. -/
theorem generateAiReply_spec (st : EngineState) (cid : Nat) (chunks : List String)
    (ab : Option Nat)
    (hong : st.ongoing = [])
    (hact : st.activeChat.bind Chat.id = some cid)
    (hmid : ∀ m ∈ st.store.messages, m.id ≠ some st.store.nextMessageId) :
    (generateAiReply st cid chunks ab).2
        = some { model := st.currentModel,
                 history := buildChatHistory
                   { st with
                     messages := st.messages
                       ++ [{ id := some st.store.nextMessageId, chatId := cid,
                             role := Role.assistant, content := "", createdAt := st.now }] } } ∧
    (generateAiReply st cid chunks ab).1.store.messages
        = st.store.messages
          ++ [{ id := some st.store.nextMessageId, chatId := cid, role := Role.assistant,
                content := joinChunks (deliveredChunks chunks ab), createdAt := st.now }] ∧
    (generateAiReply st cid chunks ab).1.ongoing = [] ∧
    (generateAiReply st cid chunks ab).1.store.chats = st.store.chats ∧
    (generateAiReply st cid chunks ab).1.store.nextChatId = st.store.nextChatId ∧
    (generateAiReply st cid chunks ab).1.store.nextMessageId = st.store.nextMessageId + 1 ∧
    (generateAiReply st cid chunks ab).1.activeChat = st.activeChat ∧
    (generateAiReply st cid chunks ab).1.chats = st.chats ∧
    (generateAiReply st cid chunks ab).1.systemPrompt = st.systemPrompt ∧
    (generateAiReply st cid chunks ab).1.now = st.now + 1 ∧
    (deliveredChunks chunks ab = [] →
      (generateAiReply st cid chunks ab).1.messages
        = st.messages
          ++ [{ id := some st.store.nextMessageId, chatId := cid, role := Role.assistant,
                content := "", createdAt := st.now }]) ∧
    (deliveredChunks chunks ab ≠ [] →
      (generateAiReply st cid chunks ab).1.messages
        = (generateAiReply st cid chunks ab).1.store.getMessages cid) := by
  set n := st.store.nextMessageId with hn
  set am0 : Message :=
    { id := some n, chatId := cid, role := Role.assistant, content := "", createdAt := st.now }
    with ham0
  set st1 : EngineState :=
    { st with
      store := (st.store.addMessage
        { id := none, chatId := cid, role := Role.assistant, content := "", createdAt := st.now }).1,
      now := st.now + 1,
      ongoing := mapSet st.ongoing cid am0,
      messages := st.messages ++ [am0] } with hst1
  have hst1ong : st1.ongoing = [(cid, am0)] := by
    rw [hst1]; simp [hong, mapSet_nil]
  have hst1msgs : st1.store.messages = st.store.messages ++ [am0] := by
    rw [hst1]; simp [Store.addMessage, ham0]
  have hamF : ∀ ds : List String,
      ({ am0 with content := am0.content ++ joinChunks ds } : Message)
      = { id := some n, chatId := cid, role := Role.assistant,
          content := joinChunks ds, createdAt := st.now } := by
    intro ds; rw [ham0]; simp
  have hst1sc : st1.store.chats = st.store.chats := by
    rw [hst1]; simp [Store.addMessage]
  have hst1nc : st1.store.nextChatId = st.store.nextChatId := by
    rw [hst1]; simp [Store.addMessage]
  have hst1nm : st1.store.nextMessageId = n + 1 := by
    rw [hst1]; simp [Store.addMessage, hn]
  cases ab with
  | none =>
    have hrs := runStream_spec chunks st1 cid n st.store.messages am0
      hst1ong (by rw [ham0]) (by rw [ham0])
      (by rw [hst1]; exact hact)
      hst1msgs hmid
    obtain ⟨b1, b2, b3, b4, b5, b6, b7, b8, b9, b10, b11⟩ := hrs
    have hgen : generateAiReply st cid chunks none
        = ({ runStream st1 cid chunks with
             ongoing := mapDelete (runStream st1 cid chunks).ongoing cid },
           some { model := st1.currentModel, history := buildChatHistory st1 }) := rfl
    rw [hgen]
    refine ⟨rfl, ?_, ?_, ?_, ?_, ?_, ?_, ?_, ?_, ?_, ?_, ?_⟩
    · show (runStream st1 cid chunks).store.messages = _
      rw [b1, hamF chunks]; rfl
    · simp only [b2, mapDelete_singleton]
    · exact b5.trans hst1sc
    · exact b6.trans hst1nc
    · exact b7.trans hst1nm
    · exact b3.trans (by rw [hst1])
    · exact b4.trans (by rw [hst1])
    · exact b8.trans (by rw [hst1])
    · exact b9.trans (by rw [hst1])
    · intro hd
      have hmm := b10 hd
      show (runStream st1 cid chunks).messages = _
      rw [hmm]
    · intro hd
      exact b11 hd
  | some k =>
    have hrs := runStream_spec (chunks.take k) st1 cid n st.store.messages am0
      hst1ong (by rw [ham0]) (by rw [ham0])
      (by rw [hst1]; exact hact)
      hst1msgs hmid
    obtain ⟨b1, b2, b3, b4, b5, b6, b7, b8, b9, b10, b11⟩ := hrs
    have hgen : generateAiReply st cid chunks (some k)
        = ({ runStream st1 cid (chunks.take k) with
             ongoing := mapDelete ([] : List (Nat × Message)) cid },
           some { model := st1.currentModel, history := buildChatHistory st1 }) := rfl
    rw [hgen]
    refine ⟨rfl, ?_, ?_, ?_, ?_, ?_, ?_, ?_, ?_, ?_, ?_, ?_⟩
    · show (runStream st1 cid (chunks.take k)).store.messages = _
      rw [b1, hamF (chunks.take k)]; rfl
    · rfl
    · exact b5.trans hst1sc
    · exact b6.trans hst1nc
    · exact b7.trans hst1nm
    · exact b3.trans (by rw [hst1])
    · exact b4.trans (by rw [hst1])
    · exact b8.trans (by rw [hst1])
    · exact b9.trans (by rw [hst1])
    · intro hd
      have hmm := b10 hd
      show (runStream st1 cid (chunks.take k)).messages = _
      rw [hmm]
    · intro hd
      exact b11 hd

/-- addUserMessage with an active chat is the user-message insertion followed by the shared assistant-reply block. -/
theorem addUserMessage_eq (st : EngineState) (a : Chat) (cid : Nat) (content : String)
    (chunks : List String) (ab : Option Nat)
    (hac : st.activeChat = some a) (haid : a.id = some cid) :
    addUserMessage st content chunks ab
      = generateAiReply
          { st with
            store := (st.store.addMessage
              { id := none, chatId := cid, role := Role.user,
                content := content, createdAt := st.now }).1,
            now := st.now + 1,
            messages := st.messages
              ++ [{ id := some st.store.nextMessageId, chatId := cid, role := Role.user,
                    content := content, createdAt := st.now }] }
          cid chunks ab := by
  simp only [addUserMessage, hac, haid, Option.getD_some]
  rfl

/-- regenerateResponse with an active chat is the conditional deletion of a trailing assistant message followed by the shared assistant-reply block, which runs regardless of the last message's role. -/
theorem regenerateResponse_eq (st : EngineState) (a : Chat) (cid : Nat)
    (chunks : List String) (ab : Option Nat)
    (hac : st.activeChat = some a) (haid : a.id = some cid) :
    regenerateResponse st chunks ab
      = generateAiReply
          { st with
            store :=
              (match st.messages.getLast? with
               | some m =>
                 if m.role == Role.assistant then
                   (match m.id with
                    | some mid => st.store.deleteMessage mid
                    | none => st.store)
                 else st.store
               | none => st.store),
            messages :=
              (match st.messages.getLast? with
               | some m =>
                 if m.role == Role.assistant then st.messages.dropLast
                 else st.messages
               | none => st.messages) }
          cid chunks ab := by
  cases hl : st.messages.getLast? with
  | none =>
    simp only [regenerateResponse, hac, haid, hl, Option.getD_some]
    rw [← hac]
  | some m =>
    by_cases hr : (m.role == Role.assistant) = true
    · cases hmi : m.id with
      | none =>
        simp only [regenerateResponse, hac, haid, hl, hr, hmi, Option.getD_some, if_true]
      | some mid =>
        simp only [regenerateResponse, hac, haid, hl, hr, hmi, Option.getD_some, if_true]
    · have hr2 : (m.role == Role.assistant) = false := by
        revert hr; cases (m.role == Role.assistant) <;> simp
      simp only [regenerateResponse, hac, haid, hl, hr2, Option.getD_some, Bool.false_eq_true,
        if_false]
      rw [← hac]

/-- The request history depends only on the visible messages, the configured history length and the captured system prompt. -/
theorem buildChatHistory_congr (s1 s2 : EngineState)
    (h1 : s1.messages = s2.messages)
    (h2 : s1.historyMessageLength = s2.historyMessageLength)
    (h3 : s1.systemPrompt = s2.systemPrompt) :
    buildChatHistory s1 = buildChatHistory s2 := by
  simp [buildChatHistory, h1, h2, h3]

/-- Full behavior of addUserMessage with an active chat and no stream in flight: exactly the user message and the assistant message are appended to the store, the request carries the bounded history, the in-flight entry is cleared, and the final assistant message appears in the visible list. -/
theorem addUserMessage_spec (st : EngineState) (a : Chat) (cid : Nat) (content : String)
    (chunks : List String) (ab : Option Nat)
    (hac : st.activeChat = some a) (haid : a.id = some cid)
    (hong : st.ongoing = []) (hmv : MessageIdsValid st) :
    (addUserMessage st content chunks ab).2
      = some { model := st.currentModel,
               history := buildChatHistory
                 { st with messages := st.messages ++
                     [{ id := some st.store.nextMessageId, chatId := cid, role := Role.user,
                        content := content, createdAt := st.now },
                      { id := some (st.store.nextMessageId + 1), chatId := cid,
                        role := Role.assistant, content := "", createdAt := st.now + 1 }] } } ∧
    (addUserMessage st content chunks ab).1.store.messages
      = st.store.messages ++
        [{ id := some st.store.nextMessageId, chatId := cid, role := Role.user,
           content := content, createdAt := st.now },
         { id := some (st.store.nextMessageId + 1), chatId := cid, role := Role.assistant,
           content := joinChunks (deliveredChunks chunks ab), createdAt := st.now + 1 }] ∧
    (addUserMessage st content chunks ab).1.ongoing = [] ∧
    (addUserMessage st content chunks ab).1.store.chats = st.store.chats ∧
    (addUserMessage st content chunks ab).1.store.nextChatId = st.store.nextChatId ∧
    (addUserMessage st content chunks ab).1.store.nextMessageId = st.store.nextMessageId + 2 ∧
    (addUserMessage st content chunks ab).1.activeChat = st.activeChat ∧
    (addUserMessage st content chunks ab).1.chats = st.chats ∧
    (addUserMessage st content chunks ab).1.systemPrompt = st.systemPrompt ∧
    ({ id := some (st.store.nextMessageId + 1), chatId := cid, role := Role.assistant,
       content := joinChunks (deliveredChunks chunks ab), createdAt := st.now + 1 } : Message)
      ∈ (addUserMessage st content chunks ab).1.messages := by
  have heq := addUserMessage_eq st a cid content chunks ab hac haid
  set n := st.store.nextMessageId with hn
  set uMsg : Message :=
    { id := some n, chatId := cid, role := Role.user, content := content, createdAt := st.now }
    with huMsg
  set stU : EngineState :=
    { st with
      store := (st.store.addMessage
        { id := none, chatId := cid, role := Role.user,
          content := content, createdAt := st.now }).1,
      now := st.now + 1,
      messages := st.messages ++ [uMsg] } with hstU
  have hUmsgs : stU.store.messages = st.store.messages ++ [uMsg] := by
    rw [hstU]; simp [Store.addMessage, huMsg]
  have hUn : stU.store.nextMessageId = n + 1 := by
    rw [hstU]; simp [Store.addMessage, hn]
  have hUact : stU.activeChat.bind Chat.id = some cid := by
    rw [hstU]; simp [hac, haid]
  have hUong : stU.ongoing = [] := by rw [hstU]; exact hong
  have hUmid : ∀ m ∈ stU.store.messages, m.id ≠ some stU.store.nextMessageId := by
    rw [hUn, hUmsgs]
    intro m hm
    rcases List.mem_append.1 hm with hmo | hmu
    · rcases hmv m hmo with ⟨h1, h2⟩
      rcases Option.isSome_iff_exists.1 h1 with ⟨k, hk⟩
      rw [hk]
      rw [hk] at h2
      simp only [Option.getD_some] at h2
      intro hcon
      apply absurd (Option.some.inj hcon)
      omega
    · simp only [List.mem_singleton] at hmu
      subst hmu
      rw [huMsg]
      simp only [ne_eq, Option.some.injEq]
      omega
  have hspec := generateAiReply_spec stU cid chunks ab hUong hUact hUmid
  obtain ⟨c1, c2, c3, c4, c5, c6, c7, c8, c9, c10, c11, c12⟩ := hspec
  have hUnow : stU.now = st.now + 1 := by rw [hstU]
  have ham0 : ({ id := some stU.store.nextMessageId, chatId := cid, role := Role.assistant,
                 content := "", createdAt := stU.now } : Message)
      = { id := some (n + 1), chatId := cid, role := Role.assistant,
          content := "", createdAt := st.now + 1 } := by
    rw [hUn, hUnow]
  have hamF : ({ id := some stU.store.nextMessageId, chatId := cid, role := Role.assistant,
                 content := joinChunks (deliveredChunks chunks ab), createdAt := stU.now } : Message)
      = { id := some (n + 1), chatId := cid, role := Role.assistant,
          content := joinChunks (deliveredChunks chunks ab), createdAt := st.now + 1 } := by
    rw [hUn, hUnow]
  have hUmsgsMem : stU.messages = st.messages ++ [uMsg] := by rw [hstU]
  refine ⟨?_, ?_, ?_, ?_, ?_, ?_, ?_, ?_, ?_, ?_⟩
  · rw [heq, c1]
    have hbch : buildChatHistory
        { stU with messages := stU.messages
            ++ [{ id := some stU.store.nextMessageId, chatId := cid, role := Role.assistant,
                  content := "", createdAt := stU.now }] }
        = buildChatHistory
        { st with messages := st.messages
            ++ [{ id := some n, chatId := cid, role := Role.user,
                  content := content, createdAt := st.now },
                { id := some (n + 1), chatId := cid, role := Role.assistant,
                  content := "", createdAt := st.now + 1 }] } := by
      apply buildChatHistory_congr
      · show stU.messages ++ _ = st.messages ++ _
        rw [ham0, hUmsgsMem, List.append_assoc]
        rfl
      · rw [hstU]
      · rw [hstU]
    rw [hbch]
  · rw [heq, c2, hamF, hUmsgs, List.append_assoc]
    rfl
  · rw [heq]; exact c3
  · rw [heq, c4, hstU]; simp [Store.addMessage]
  · rw [heq, c5, hstU]; simp [Store.addMessage]
  · rw [heq, c6, hUn]
  · rw [heq, c7, hstU]
  · rw [heq, c8, hstU]
  · rw [heq, c9, hstU]
  · rw [heq]
    rcases Decidable.em (deliveredChunks chunks ab = []) with hd | hd
    · have hmm := c11 hd
      rw [hmm, hd]
      rw [show joinChunks [] = "" from rfl]
      rw [hUmsgsMem, List.append_assoc, ham0]
      exact List.mem_append_right _ (by simp)
    · have hmm := c12 hd
      rw [hmm]
      have hmem : ({ id := some (n + 1), chatId := cid, role := Role.assistant,
                     content := joinChunks (deliveredChunks chunks ab), createdAt := st.now + 1 } : Message)
          ∈ (generateAiReply stU cid chunks ab).1.store.messages := by
        rw [c2, hamF]
        exact List.mem_append_right _ (by simp)
      simp only [Store.getMessages, List.mem_filter]
      exact ⟨hmem, by simp⟩

/-- Stored message keys stay below the allocator, hence differ from the next fresh key. -/
theorem midValid_ne (st : EngineState) (hmv : MessageIdsValid st) :
    ∀ m ∈ st.store.messages, m.id ≠ some st.store.nextMessageId := by
  intro m hm
  rcases hmv m hm with ⟨h1, h2⟩
  rcases Option.isSome_iff_exists.1 h1 with ⟨k, hk⟩
  rw [hk]
  rw [hk] at h2
  simp only [Option.getD_some] at h2
  simp only [ne_eq, Option.some.injEq]
  omega

/-- When the last visible message has role user, regenerateResponse skips the deletion yet still runs the assistant-reply block on the unchanged state. -/
theorem regenerateResponse_eq_of_user (st : EngineState) (a : Chat) (cid : Nat)
    (chunks : List String) (ab : Option Nat) (m : Message)
    (hac : st.activeChat = some a) (haid : a.id = some cid)
    (hm : st.messages.getLast? = some m) (hrole : m.role = Role.user) :
    regenerateResponse st chunks ab = generateAiReply st cid chunks ab := by
  rw [regenerateResponse_eq st a cid chunks ab hac haid, hm]
  have hfalse : (m.role == Role.assistant) = false := by rw [hrole]; rfl
  simp only [hfalse, Bool.false_eq_true, if_false]

/-- The conditional deletion of regenerateResponse never touches the message-key allocator. -/
theorem regen_pop_store (st : EngineState) :
    (match st.messages.getLast? with
     | some m =>
       if m.role == Role.assistant then
         (match m.id with
          | some mid => st.store.deleteMessage mid
          | none => st.store)
       else st.store
     | none => st.store : Store).nextMessageId = st.store.nextMessageId := by
  cases hl : st.messages.getLast? with
  | none => rfl
  | some m =>
    by_cases hr : (m.role == Role.assistant) = true
    · cases hmi : m.id with
      | none => simp [hr, hmi]
      | some mid => simp [hr, hmi, Store.deleteMessage]
    · simp [hr]

/-- The conditional deletion of regenerateResponse only removes messages. -/
theorem regen_pop_store_mem (st : EngineState) (m2 : Message)
    (hm2 : m2 ∈ (match st.messages.getLast? with
     | some m =>
       if m.role == Role.assistant then
         (match m.id with
          | some mid => st.store.deleteMessage mid
          | none => st.store)
       else st.store
     | none => st.store : Store).messages) : m2 ∈ st.store.messages := by
  revert hm2
  cases hl : st.messages.getLast? with
  | none => exact fun h => h
  | some m =>
    by_cases hr : (m.role == Role.assistant) = true
    · cases hmi : m.id with
      | none => simp [hr, hmi]
      | some mid =>
        simp only [hr, hmi, if_true, Store.deleteMessage]
        intro h
        exact List.mem_of_mem_filter h
    · simp [hr]

/-- Behavior of regenerateResponse when the last message is a user message: no deletion, one new assistant message persisted, a stream opened, the in-flight entry cleared at the end. -/
theorem regenerateResponse_spec_user (st : EngineState) (a : Chat) (cid : Nat)
    (chunks : List String) (ab : Option Nat) (m : Message)
    (hac : st.activeChat = some a) (haid : a.id = some cid)
    (hong : st.ongoing = []) (hmv : MessageIdsValid st)
    (hm : st.messages.getLast? = some m) (hrole : m.role = Role.user) :
    (regenerateResponse st chunks ab).1.store.messages
      = st.store.messages
        ++ [{ id := some st.store.nextMessageId, chatId := cid, role := Role.assistant,
              content := joinChunks (deliveredChunks chunks ab), createdAt := st.now }] ∧
    (regenerateResponse st chunks ab).2.isSome = true ∧
    (regenerateResponse st chunks ab).1.ongoing = [] := by
  rw [regenerateResponse_eq_of_user st a cid chunks ab m hac haid hm hrole]
  have hspec := generateAiReply_spec st cid chunks ab hong (by simp [hac, haid])
    (midValid_ne st hmv)
  obtain ⟨c1, c2, c3, _⟩ := hspec
  exact ⟨c2, by rw [c1]; rfl, c3⟩

/-- The request regenerateResponse sends to the backend: the bounded history of the visible list after the conditional pop and the insertion of the fresh empty assistant message. -/
theorem regenerateResponse_history (st : EngineState) (a : Chat) (cid : Nat)
    (chunks : List String) (ab : Option Nat)
    (hac : st.activeChat = some a) (haid : a.id = some cid)
    (hong : st.ongoing = []) (hmv : MessageIdsValid st) :
    (regenerateResponse st chunks ab).2
      = some { model := st.currentModel,
               history := buildChatHistory
                 { st with messages :=
                     (match st.messages.getLast? with
                      | some m => if m.role == Role.assistant then st.messages.dropLast
                                  else st.messages
                      | none => st.messages)
                     ++ [{ id := some st.store.nextMessageId, chatId := cid,
                           role := Role.assistant, content := "", createdAt := st.now }] } } := by
  rw [regenerateResponse_eq st a cid chunks ab hac haid]
  set sP : Store :=
    (match st.messages.getLast? with
     | some m =>
       if m.role == Role.assistant then
         (match m.id with
          | some mid => st.store.deleteMessage mid
          | none => st.store)
       else st.store
     | none => st.store) with hsP
  set msP : List Message :=
    (match st.messages.getLast? with
     | some m =>
       if m.role == Role.assistant then st.messages.dropLast
       else st.messages
     | none => st.messages) with hmsP
  have hsn : sP.nextMessageId = st.store.nextMessageId := by
    rw [hsP]; exact regen_pop_store st
  have hsmem : ∀ m2 ∈ sP.messages, m2 ∈ st.store.messages := by
    intro m2 hm2
    rw [hsP] at hm2
    exact regen_pop_store_mem st m2 hm2
  set stP : EngineState := { st with store := sP, messages := msP } with hstP
  have hongP : stP.ongoing = [] := by rw [hstP]; exact hong
  have hactP : stP.activeChat.bind Chat.id = some cid := by
    rw [hstP]; simp [hac, haid]
  have hmidP : ∀ m2 ∈ stP.store.messages, m2.id ≠ some stP.store.nextMessageId := by
    intro m2 hm2
    have h1 : stP.store = sP := by rw [hstP]
    rw [h1] at hm2 ⊢
    rw [hsn]
    exact midValid_ne st hmv m2 (hsmem m2 hm2)
  have hspec := (generateAiReply_spec stP cid chunks ab hongP hactP hmidP).1
  rw [hspec]
  have hbch : buildChatHistory
      { stP with messages := stP.messages
          ++ [{ id := some stP.store.nextMessageId, chatId := cid, role := Role.assistant,
                content := "", createdAt := stP.now }] }
      = buildChatHistory
      { st with messages := msP
          ++ [{ id := some st.store.nextMessageId, chatId := cid, role := Role.assistant,
                content := "", createdAt := st.now }] } := by
    apply buildChatHistory_congr
    · show stP.messages ++ _ = msP ++ _
      have h2 : stP.messages = msP := by rw [hstP]
      have h3 : stP.store.nextMessageId = st.store.nextMessageId := by
        rw [hstP]; exact hsn
      have h4 : stP.now = st.now := by rw [hstP]
      rw [h2, h3, h4]
    · rw [hstP]
    · rw [hstP]
  rw [hbch]

/-- Claim C1, counterexample: at a state with configured history length 0 and no captured system prompt the claim predicts an empty history window, but the request sent by addUserMessage carries the full visible list (three messages), because JS `slice(-0)` is `slice(0)`. -/
theorem claim1_counterexample :
    exState.historyMessageLength = some 0 ∧
    exState.systemPrompt = none ∧
    ((addUserMessage exState "x" [] none).2.map (fun r => r.history.length)) = some 3 := by
  refine ⟨rfl, rfl, ?_⟩
  rfl

/-- Claim C1 (amended): in addUserMessage and in regenerateResponse, the history sent to the backend is the JS slice by `-(N)` of the visible message list as it stands after the operation's own insertions — the WHOLE list when the configured history length N is 0 or unset, the last min(N, length) messages otherwise — with the engine's currently captured system-prompt message prepended when one exists. -/
theorem claim1_amended (st : EngineState) (a : Chat) (cid : Nat) (content : String)
    (chunks : List String) (ab : Option Nat)
    (hac : st.activeChat = some a) (haid : a.id = some cid)
    (hong : st.ongoing = []) (hmv : MessageIdsValid st) :
    (addUserMessage st content chunks ab).2
      = some { model := st.currentModel,
               history :=
                 (match st.systemPrompt with
                  | some p => p :: jsSliceLast
                      (st.messages
                        ++ [{ id := some st.store.nextMessageId, chatId := cid,
                              role := Role.user, content := content, createdAt := st.now },
                            { id := some (st.store.nextMessageId + 1), chatId := cid,
                              role := Role.assistant, content := "", createdAt := st.now + 1 }])
                      (st.historyMessageLength.getD 0)
                  | none => jsSliceLast
                      (st.messages
                        ++ [{ id := some st.store.nextMessageId, chatId := cid,
                              role := Role.user, content := content, createdAt := st.now },
                            { id := some (st.store.nextMessageId + 1), chatId := cid,
                              role := Role.assistant, content := "", createdAt := st.now + 1 }])
                      (st.historyMessageLength.getD 0)) } ∧
    (regenerateResponse st chunks ab).2
      = some { model := st.currentModel,
               history :=
                 (match st.systemPrompt with
                  | some p => p :: jsSliceLast
                      ((match st.messages.getLast? with
                        | some m => if m.role == Role.assistant then st.messages.dropLast
                                    else st.messages
                        | none => st.messages)
                        ++ [{ id := some st.store.nextMessageId, chatId := cid,
                              role := Role.assistant, content := "", createdAt := st.now }])
                      (st.historyMessageLength.getD 0)
                  | none => jsSliceLast
                      ((match st.messages.getLast? with
                        | some m => if m.role == Role.assistant then st.messages.dropLast
                                    else st.messages
                        | none => st.messages)
                        ++ [{ id := some st.store.nextMessageId, chatId := cid,
                              role := Role.assistant, content := "", createdAt := st.now }])
                      (st.historyMessageLength.getD 0)) } := by
  constructor
  · rw [(addUserMessage_spec st a cid content chunks ab hac haid hong hmv).1]
    rfl
  · rw [regenerateResponse_history st a cid chunks ab hac haid hong hmv]
    rfl

/-- Witness for claim C1's amended theorem at a concrete one-message state, for both operations. -/
theorem claim1_witness :
    (addUserMessage exState "x" [] none).2
      = some { model := "m",
               history :=
                 [exMsg,
                  { id := some 2, chatId := 1, role := Role.user, content := "x", createdAt := 10 },
                  { id := some 3, chatId := 1, role := Role.assistant, content := "", createdAt := 11 }] } ∧
    (regenerateResponse exState [] none).2
      = some { model := "m",
               history :=
                 [exMsg,
                  { id := some 2, chatId := 1, role := Role.assistant, content := "", createdAt := 10 }] } := by
  have h := claim1_amended exState exChat 1 "x" [] none rfl rfl rfl (by decide)
  exact ⟨h.1, h.2⟩

/-- Claim C2, counterexample: at a state whose last message has role user, regenerateResponse is not a no-op — it persists one new message and opens a stream. -/
theorem claim2_counterexample :
    (exState.messages.getLast?.map Message.role) = some Role.user ∧
    (regenerateResponse exState [] none).1.store.messages.length
      = exState.store.messages.length + 1 ∧
    (regenerateResponse exState [] none).2.isSome = true := by
  exact ⟨rfl, rfl, rfl⟩

/-- Claim C2 (amended): when the active chat's last message has role user, regenerateResponse deletes nothing, but it still creates and persists one new assistant message (created empty, accumulating the streamed chunks) and opens a stream; the in-flight entry is cleared at the end. -/
theorem claim2_amended (st : EngineState) (a : Chat) (cid : Nat)
    (chunks : List String) (ab : Option Nat) (m : Message)
    (hac : st.activeChat = some a) (haid : a.id = some cid)
    (hong : st.ongoing = []) (hmv : MessageIdsValid st)
    (hm : st.messages.getLast? = some m) (hrole : m.role = Role.user) :
    (regenerateResponse st chunks ab).1.store.messages
      = st.store.messages
        ++ [{ id := some st.store.nextMessageId, chatId := cid, role := Role.assistant,
              content := joinChunks (deliveredChunks chunks ab), createdAt := st.now }] ∧
    (regenerateResponse st chunks ab).2.isSome = true ∧
    (regenerateResponse st chunks ab).1.ongoing = [] :=
  regenerateResponse_spec_user st a cid chunks ab m hac haid hong hmv hm hrole

/-- Witness for claim C2's amended theorem at a concrete state whose last message is a user message. -/
theorem claim2_witness :
    (regenerateResponse exState [] none).1.store.messages
      = exState.store.messages
        ++ [{ id := some 2, chatId := 1, role := Role.assistant,
              content := "", createdAt := 10 }] ∧
    (regenerateResponse exState [] none).2.isSome = true ∧
    (regenerateResponse exState [] none).1.ongoing = [] := by
  have h := claim2_amended exState exChat 1 [] none exMsg rfl rfl rfl (by decide) rfl rfl
  exact h

/-- Claim C6: a successful addUserMessage persists exactly two new messages — first the user message with the given content, then the assistant message created with empty content (its final content is the concatenation of the streamed chunks) — both under the active chat's id; when there is no active chat, nothing is persisted and the call returns the state unchanged. -/
theorem claim6_two_persisted_messages (st : EngineState) (a : Chat) (cid : Nat)
    (content : String) (chunks : List String) (ab : Option Nat)
    (hac : st.activeChat = some a) (haid : a.id = some cid)
    (hong : st.ongoing = []) (hmv : MessageIdsValid st) :
    (addUserMessage st content chunks ab).1.store.messages
      = st.store.messages
        ++ [{ id := some st.store.nextMessageId, chatId := cid, role := Role.user,
              content := content, createdAt := st.now },
            { id := some (st.store.nextMessageId + 1), chatId := cid, role := Role.assistant,
              content := joinChunks (deliveredChunks chunks ab), createdAt := st.now + 1 }] ∧
    (∀ st2 : EngineState, ∀ c2 : String, ∀ ch2 : List String, ∀ ab2 : Option Nat,
      st2.activeChat = none → addUserMessage st2 c2 ch2 ab2 = (st2, none)) := by
  constructor
  · exact (addUserMessage_spec st a cid content chunks ab hac haid hong hmv).2.1
  · intro st2 c2 ch2 ab2 h2
    simp only [addUserMessage, h2]

/-- Witness for claim C6 at a concrete state, including the no-active-chat case. -/
theorem claim6_witness :
    (addUserMessage exState "hi" ["a"] none).1.store.messages
      = exState.store.messages
        ++ [{ id := some 2, chatId := 1, role := Role.user, content := "hi", createdAt := 10 },
            { id := some 3, chatId := 1, role := Role.assistant, content := "a", createdAt := 11 }] ∧
    addUserMessage exNoActive "x" [] none = (exNoActive, none) := by
  have h := claim6_two_persisted_messages exState exChat 1 "hi" ["a"] none rfl rfl rfl (by decide)
  exact ⟨h.1, h.2 exNoActive "x" [] none rfl⟩

/-- Claim C8: the assistant message's final persisted content equals the concatenation of the chunk texts in arrival order, every stream prefix leaves the persisted content at the prefix concatenation (the content is persisted after each chunk), the final assistant message appears in the refreshed visible list, and the completion handling clears the in-flight entry. -/
theorem claim8_stream_concatenation (st : EngineState) (a : Chat) (cid : Nat)
    (content : String) (chunks : List String)
    (hac : st.activeChat = some a) (haid : a.id = some cid)
    (hong : st.ongoing = []) (hmv : MessageIdsValid st) :
    (addUserMessage st content chunks none).1.store.messages
      = st.store.messages
        ++ [{ id := some st.store.nextMessageId, chatId := cid, role := Role.user,
              content := content, createdAt := st.now },
            { id := some (st.store.nextMessageId + 1), chatId := cid, role := Role.assistant,
              content := joinChunks chunks, createdAt := st.now + 1 }] ∧
    ({ id := some (st.store.nextMessageId + 1), chatId := cid, role := Role.assistant,
       content := joinChunks chunks, createdAt := st.now + 1 } : Message)
      ∈ (addUserMessage st content chunks none).1.messages ∧
    (∀ k : Nat,
      (addUserMessage st content (chunks.take k) none).1.store.messages
        = st.store.messages
          ++ [{ id := some st.store.nextMessageId, chatId := cid, role := Role.user,
                content := content, createdAt := st.now },
              { id := some (st.store.nextMessageId + 1), chatId := cid, role := Role.assistant,
                content := joinChunks (chunks.take k), createdAt := st.now + 1 }]) ∧
    (addUserMessage st content chunks none).1.ongoing = [] := by
  have h := addUserMessage_spec st a cid content chunks none hac haid hong hmv
  refine ⟨h.2.1, h.2.2.2.2.2.2.2.2.2, ?_, h.2.2.1⟩
  intro k
  exact (addUserMessage_spec st a cid content (chunks.take k) none hac haid hong hmv).2.1

/-- Witness for claim C8: the spec scenario with streamed chunks Hel and lo yielding content Hello. -/
theorem claim8_witness :
    (addUserMessage exState "hi" ["Hel", "lo"] none).1.store.messages
      = exState.store.messages
        ++ [{ id := some 2, chatId := 1, role := Role.user, content := "hi", createdAt := 10 },
            { id := some 3, chatId := 1, role := Role.assistant, content := "Hello", createdAt := 11 }] ∧
    ({ id := some 3, chatId := 1, role := Role.assistant, content := "Hello", createdAt := 11 } : Message)
      ∈ (addUserMessage exState "hi" ["Hel", "lo"] none).1.messages ∧
    (addUserMessage exState "hi" ["Hel", "lo"] none).1.ongoing = [] := by
  have h := claim8_stream_concatenation exState exChat 1 "hi" ["Hel", "lo"] rfl rfl rfl (by decide)
  exact ⟨h.1, h.2.1, h.2.2.2⟩

/-- Claim C5: when the stream of addUserMessage is aborted after k chunks, the in-flight tracking entry is cleared, the call returns normally with the request having been opened, both new messages remain persisted (no rollback), and the assistant content — in the store and in the visible list — is exactly the concatenation of the k chunks received before the abort, no chunk duplicated or dropped. -/
theorem claim5_abort_midstream (st : EngineState) (a : Chat) (cid : Nat)
    (content : String) (chunks : List String) (k : Nat)
    (hac : st.activeChat = some a) (haid : a.id = some cid)
    (hong : st.ongoing = []) (hmv : MessageIdsValid st)
    (hk : k ≤ chunks.length) :
    (addUserMessage st content chunks (some k)).1.ongoing = [] ∧
    (addUserMessage st content chunks (some k)).2.isSome = true ∧
    (addUserMessage st content chunks (some k)).1.store.messages
      = st.store.messages
        ++ [{ id := some st.store.nextMessageId, chatId := cid, role := Role.user,
              content := content, createdAt := st.now },
            { id := some (st.store.nextMessageId + 1), chatId := cid, role := Role.assistant,
              content := joinChunks (chunks.take k), createdAt := st.now + 1 }] ∧
    ({ id := some (st.store.nextMessageId + 1), chatId := cid, role := Role.assistant,
       content := joinChunks (chunks.take k), createdAt := st.now + 1 } : Message)
      ∈ (addUserMessage st content chunks (some k)).1.messages := by
  have h := addUserMessage_spec st a cid content chunks (some k) hac haid hong hmv
  exact ⟨h.2.2.1, by rw [h.1]; rfl, h.2.1, h.2.2.2.2.2.2.2.2.2⟩

/-- Witness for claim C5: abort after one of two chunks leaves content Hel. -/
theorem claim5_witness :
    1 ≤ (["Hel", "lo"] : List String).length ∧
    (addUserMessage exState "hi" ["Hel", "lo"] (some 1)).1.ongoing = [] ∧
    (addUserMessage exState "hi" ["Hel", "lo"] (some 1)).2.isSome = true ∧
    (addUserMessage exState "hi" ["Hel", "lo"] (some 1)).1.store.messages
      = exState.store.messages
        ++ [{ id := some 2, chatId := 1, role := Role.user, content := "hi", createdAt := 10 },
            { id := some 3, chatId := 1, role := Role.assistant, content := "Hel", createdAt := 11 }] ∧
    ({ id := some 3, chatId := 1, role := Role.assistant, content := "Hel", createdAt := 11 } : Message)
      ∈ (addUserMessage exState "hi" ["Hel", "lo"] (some 1)).1.messages := by
  have h := claim5_abort_midstream exState exChat 1 "hi" ["Hel", "lo"] 1 rfl rfl rfl
    (by decide) (by decide)
  exact ⟨by decide, h.1, h.2.1, h.2.2.1, h.2.2.2⟩

/-- Claim C9: renameChat changes only the chat's name, in memory and in the store — the active chat keeps every other field; the store's chat list keeps its length and, pointwise, its ids, models and createdAt values, with only entries carrying the active chat's id renamed; no message is modified; the in-memory list is refreshed from the store. -/
theorem claim9_rename_frame (st : EngineState) (a : Chat) (cid : Nat) (newName : String)
    (hac : st.activeChat = some a) (haid : a.id = some cid) :
    (renameChat st newName).activeChat = some { a with name := newName } ∧
    (renameChat st newName).store.messages = st.store.messages ∧
    (renameChat st newName).messages = st.messages ∧
    (renameChat st newName).systemPrompt = st.systemPrompt ∧
    (renameChat st newName).store.nextChatId = st.store.nextChatId ∧
    (renameChat st newName).store.nextMessageId = st.store.nextMessageId ∧
    (renameChat st newName).store.chats.length = st.store.chats.length ∧
    (∀ j : Nat, ∀ c : Chat, st.store.chats.get? j = some c →
      ∃ c2 : Chat, (renameChat st newName).store.chats.get? j = some c2 ∧
        c2.id = c.id ∧ c2.model = c.model ∧ c2.createdAt = c.createdAt ∧
        (c.id ≠ a.id → c2.name = c.name) ∧
        (c.id = a.id → c2.name = newName)) ∧
    (renameChat st newName).chats = (renameChat st newName).store.chats := by
  have heq : renameChat st newName
      = { st with
          activeChat := some { a with name := newName },
          store := st.store.updateChatName cid newName,
          chats := (st.store.updateChatName cid newName).chats } := by
    simp only [renameChat, hac, haid, Option.getD_some]
  rw [heq]
  refine ⟨rfl, rfl, rfl, rfl, rfl, rfl, ?_, ?_, rfl⟩
  · simp [Store.updateChatName]
  · intro j c hc
    have hmap : (st.store.updateChatName cid newName).chats.get? j
        = some (if c.id == some cid then { c with name := newName } else c) := by
      simp only [Store.updateChatName]
      rw [List.get?_map, hc]
      rfl
    by_cases hcid : (c.id == some cid) = true
    · refine ⟨{ c with name := newName }, ?_, rfl, rfl, rfl, ?_, ?_⟩
      · rw [hmap, hcid]; simp
      · intro hne
        exfalso
        apply hne
        rw [haid]
        exact eq_of_beq hcid
      · intro _; rfl
    · refine ⟨c, ?_, rfl, rfl, rfl, ?_, ?_⟩
      · rw [hmap]
        have : (c.id == some cid) = false := by
          revert hcid; cases (c.id == some cid) <;> simp
        rw [this]
        simp
      · intro _; rfl
      · intro hEq
        exfalso
        apply hcid
        rw [hEq, haid]
        simp

/-- Witness for claim C9 at a concrete one-chat state. -/
theorem claim9_witness :
    (renameChat exState "B").activeChat
      = some { id := some 1, name := "B", model := "m", createdAt := 5 } ∧
    (renameChat exState "B").store.messages = exState.store.messages ∧
    (renameChat exState "B").messages = exState.messages ∧
    (renameChat exState "B").store.chats
      = [{ id := some 1, name := "B", model := "m", createdAt := 5 }] ∧
    (renameChat exState "B").chats = (renameChat exState "B").store.chats := by
  have h := claim9_rename_frame exState exChat 1 "B" rfl rfl
  exact ⟨h.1, h.2.1, h.2.2.1, by rfl, h.2.2.2.2.2.2.2.2⟩

/-- Claim C10: importChats is total only on bundles that have a createdAt or at least one message — a bundle with neither faults while reading the first message's createdAt (element 0 of the empty list is undefined), so its chat is not imported and the fault is recorded rather than degrading to a silent no-op; conversely any bundle with a createdAt or a non-empty message list is imported. -/
theorem claim10_import_fault (st : EngineState) (b : ChatExport) :
    (b.createdAt = none → b.messages = [] →
      (importOne st b = none ∧ importChats st [b] = (st, true))) ∧
    (b.createdAt.isSome = true ∨ b.messages ≠ [] → (importOne st b).isSome = true) := by
  constructor
  · intro h1 h2
    have hio : importOne st b = none := by
      simp [importOne, h1, h2]
    refine ⟨hio, ?_⟩
    simp [importChats, hio]
  · intro h
    cases hca : b.createdAt with
    | some t => simp [importOne, hca]
    | none =>
      rcases h with h | h
      · rw [hca] at h; simp at h
      · cases hms : b.messages with
        | nil => exact absurd hms h
        | cons m ms => simp [importOne, hca, hms]

/-- Witness for claim C10 at the faulting bundle and at a repaired one. -/
theorem claim10_witness :
    importOne exNoActive exBadBundle = none ∧
    importChats exNoActive [exBadBundle] = (exNoActive, true) ∧
    (importOne exNoActive
      { id := none, name := "b", model := "m", createdAt := some 3, messages := [] }).isSome
      = true := by
  have h1 := (claim10_import_fault exNoActive exBadBundle).1 rfl rfl
  have h2 := (claim10_import_fault exNoActive
    { id := none, name := "b", model := "m", createdAt := some 3, messages := [] }).2
    (Or.inl rfl)
  exact ⟨h1.1, h1.2, h2⟩

/-- addSystemMessage never touches the chat list, the chat table, the chat-key allocator or the active chat, and only ever appends a message belonging to the active chat. -/
theorem addSystemMessage_frame (st : EngineState) (content : Option String) :
    (addSystemMessage st content).chats = st.chats ∧
    (addSystemMessage st content).store.chats = st.store.chats ∧
    (addSystemMessage st content).store.nextChatId = st.store.nextChatId ∧
    (addSystemMessage st content).activeChat = st.activeChat ∧
    (∀ m ∈ (addSystemMessage st content).messages,
      m ∈ st.messages ∨ ∃ a, st.activeChat = some a ∧ m.chatId = a.id.getD 0) ∧
    (∀ m ∈ (addSystemMessage st content).store.messages,
      m ∈ st.store.messages ∨ ∃ a, st.activeChat = some a ∧ m.chatId = a.id.getD 0) := by
  cases hA : st.activeChat with
  | none =>
    simp only [addSystemMessage, hA]
    exact ⟨True.intro, True.intro, True.intro, True.intro,
      fun m hm => Or.inl hm, fun m hm => Or.inl hm⟩
  | some chat =>
    cases hc : content with
    | none =>
      simp only [addSystemMessage, hA, hc]
      exact ⟨True.intro, True.intro, True.intro, True.intro,
        fun m hm => Or.inl hm, fun m hm => Or.inl hm⟩
    | some c =>
      by_cases hce : c = ""
      · simp only [addSystemMessage, hA, hc, if_pos hce]
        exact ⟨True.intro, True.intro, True.intro, True.intro,
          fun m hm => Or.inl hm, fun m hm => Or.inl hm⟩
      · simp only [addSystemMessage, hA, hc, if_neg hce]
        refine ⟨True.intro, by simp [Store.addMessage], by simp [Store.addMessage],
          True.intro, ?_, ?_⟩
        · intro m hm
          rcases List.mem_append.1 hm with hm | hm
          · exact Or.inl hm
          · simp only [List.mem_singleton] at hm
            subst hm
            exact Or.inr ⟨chat, rfl, rfl⟩
        · intro m hm
          rcases List.mem_append.1 hm with hm | hm
          · exact Or.inl hm
          · simp only [List.mem_singleton] at hm
            subst hm
            exact Or.inr ⟨chat, rfl, rfl⟩

/-- startNewChat appends one persisted chat carrying the fresh key, makes it active, and only adds messages belonging to it. -/
theorem startNewChat_spec (st : EngineState) (name : String) :
    (startNewChat st name).chats
      = st.chats ++ [{ id := some st.store.nextChatId, name := name,
                       model := st.currentModel, createdAt := st.now }] ∧
    (startNewChat st name).store.chats
      = st.store.chats ++ [{ id := some st.store.nextChatId, name := name,
                             model := st.currentModel, createdAt := st.now }] ∧
    (startNewChat st name).store.nextChatId = st.store.nextChatId + 1 ∧
    (startNewChat st name).activeChat
      = some { id := some st.store.nextChatId, name := name,
               model := st.currentModel, createdAt := st.now } ∧
    (∀ m ∈ (startNewChat st name).messages, m.chatId = st.store.nextChatId) ∧
    (∀ m ∈ (startNewChat st name).store.messages,
      m ∈ st.store.messages ∨ m.chatId = st.store.nextChatId) := by
  set nc : Chat := { id := some st.store.nextChatId, name := name,
                     model := st.currentModel, createdAt := st.now } with hnc
  set st1 : EngineState :=
    { st with
      store := (st.store.addChat
        { id := none, name := name, model := st.currentModel, createdAt := st.now }).1,
      now := st.now + 1,
      chats := st.chats ++ [nc],
      activeChat := some nc, messages := [] } with hst1
  have heq : startNewChat st name = addSystemMessage st1 st1.systemMessageConfig := rfl
  have hfr := addSystemMessage_frame st1 st1.systemMessageConfig
  obtain ⟨f1, f2, f3, f4, f5, f6⟩ := hfr
  rw [heq]
  have hsc : st1.store.chats = st.store.chats ++ [nc] := by
    rw [hst1]; simp [Store.addChat, hnc]
  have hnn : st1.store.nextChatId = st.store.nextChatId + 1 := by
    rw [hst1]; simp [Store.addChat]
  refine ⟨?_, ?_, ?_, ?_, ?_, ?_⟩
  · rw [f1, hst1]
  · rw [f2, hsc]
  · rw [f3, hnn]
  · rw [f4, hst1]
  · intro m hm
    rcases f5 m hm with hm2 | ⟨a, ha, hcid⟩
    · rw [hst1] at hm2
      simp at hm2
    · have : a = nc := by
        rw [hst1] at ha
        exact (Option.some.inj ha).symm
      rw [this, hnc] at hcid
      simpa using hcid
  · intro m hm
    rcases f6 m hm with hm2 | ⟨a, ha, hcid⟩
    · left
      rw [hst1] at hm2
      simpa [Store.addChat] using hm2
    · right
      have : a = nc := by
        rw [hst1] at ha
        exact (Option.some.inj ha).symm
      rw [this, hnc] at hcid
      simpa using hcid

/-- A found chat is a stored chat with the requested key. -/
theorem getChat_found (s : Store) (cid : Nat) (c : Chat) (h : s.getChat cid = some c) :
    c ∈ s.chats ∧ c.id = some cid := by
  have hmem := List.mem_of_find?_eq_some h
  have hp := List.find?_some h
  exact ⟨hmem, eq_of_beq hp⟩

/-- Lookup succeeds for the key of any stored chat. -/
theorem getChat_isSome (s : Store) (cid : Nat) (c : Chat)
    (hc : c ∈ s.chats) (hid : c.id = some cid) : (s.getChat cid).isSome = true := by
  rw [Store.getChat, List.find?_isSome]
  exact ⟨c, hc, by rw [hid]; simp⟩

/-- With pairwise distinct keys, two stored chats with the same key are the same chat. -/
theorem chat_eq_of_id_eq (l : List Chat) (hd : (l.map Chat.id).Nodup)
    (c1 c2 : Chat) (h1 : c1 ∈ l) (h2 : c2 ∈ l) (h : c1.id = c2.id) : c1 = c2 :=
  List.inj_on_of_nodup_map hd h1 h2 h

/-- Membership in the stable insertion. -/
theorem mem_insertByCreatedDesc (c : Chat) (l : List Chat) (y : Chat) :
    y ∈ insertByCreatedDesc c l ↔ y = c ∨ y ∈ l := by
  induction l with
  | nil => simp [insertByCreatedDesc]
  | cons x xs ih =>
    by_cases h : c.createdAt < x.createdAt
    · simp only [insertByCreatedDesc, if_pos h, List.mem_cons, ih]
      tauto
    · simp only [insertByCreatedDesc, if_neg h, List.mem_cons]

/-- The sorted view has the same members as the chat list. -/
theorem mem_sortedChats (l : List Chat) (y : Chat) :
    y ∈ sortedChats l ↔ y ∈ l := by
  induction l with
  | nil => simp [sortedChats]
  | cons x xs ih =>
    show y ∈ insertByCreatedDesc x (sortedChats xs) ↔ _
    rw [mem_insertByCreatedDesc]
    simp only [List.mem_cons, ih]

/-- Stable insertion preserves head-maximality of createdAt. -/
theorem headMax_insertByCreatedDesc (c : Chat) (l : List Chat)
    (h : ∀ c0 rest, l = c0 :: rest → ∀ y ∈ l, y.createdAt ≤ c0.createdAt) :
    ∀ c0 rest, insertByCreatedDesc c l = c0 :: rest →
      ∀ y ∈ insertByCreatedDesc c l, y.createdAt ≤ c0.createdAt := by
  cases l with
  | nil =>
    intro c0 rest hEq y hy
    simp only [insertByCreatedDesc] at hEq hy
    obtain ⟨h1, h2⟩ := List.cons.inj hEq
    subst h1
    simp only [List.mem_singleton] at hy
    subst hy
    exact le_refl _
  | cons x xs =>
    by_cases hc : c.createdAt < x.createdAt
    · intro c0 rest hEq y hy
      simp only [insertByCreatedDesc, if_pos hc] at hEq hy
      obtain ⟨hx0, _⟩ := List.cons.inj hEq
      subst hx0
      rcases List.mem_cons.1 hy with hy | hy
      · subst hy; omega
      · rcases (mem_insertByCreatedDesc c xs y).1 hy with hy | hy
        · subst hy; omega
        · exact h x xs rfl y (List.mem_cons_of_mem x hy)
    · intro c0 rest hEq y hy
      simp only [insertByCreatedDesc, if_neg hc] at hEq hy
      obtain ⟨hx0, _⟩ := List.cons.inj hEq
      subst hx0
      rcases List.mem_cons.1 hy with hy | hy
      · subst hy; omega
      · rcases List.mem_cons.1 hy with hy2 | hy2
        · subst hy2; omega
        · have := h x xs rfl y (List.mem_cons_of_mem x hy2)
          omega

/-- The head of the sorted view has maximal createdAt. -/
theorem sortedChats_head_max (l : List Chat) :
    ∀ c0 rest, sortedChats l = c0 :: rest →
      ∀ y ∈ l, y.createdAt ≤ c0.createdAt := by
  induction l with
  | nil => intro c0 rest h; cases h
  | cons x xs ih =>
    intro c0 rest h y hy
    have hMax : ∀ c1 r1, sortedChats xs = c1 :: r1 →
        ∀ z ∈ sortedChats xs, z.createdAt ≤ c1.createdAt := by
      intro c1 r1 h1 z hz
      exact ih c1 r1 h1 z ((mem_sortedChats xs z).1 hz)
    have hstep := headMax_insertByCreatedDesc x (sortedChats xs) hMax c0 rest h
    have hy2 : y ∈ insertByCreatedDesc x (sortedChats xs) := by
      rw [mem_insertByCreatedDesc, mem_sortedChats]
      rcases List.mem_cons.1 hy with hy | hy
      · exact Or.inl hy
      · exact Or.inr hy
    exact hstep y hy2

/-- The sorted view is empty exactly when the list is. -/
theorem sortedChats_nil_iff (l : List Chat) :
    sortedChats l = [] ↔ l = [] := by
  cases l with
  | nil => simp [sortedChats]
  | cons x xs =>
    constructor
    · intro h
      exfalso
      have : x ∈ sortedChats (x :: xs) := by
        rw [mem_sortedChats]
        simp
      rw [h] at this
      cases this
    · intro h; cases h

/-- Under list/store sync and distinct keys, switchChat leaves the store and the in-memory chat list unchanged (the model write is the identity); if the chat is found it becomes active with its messages loaded, otherwise the state is untouched. -/
theorem switchChat_spec (st : EngineState) (cid : Nat)
    (hs : ChatsSynced st) (hd : ChatIdsNodup st) :
    (switchChat st cid).store = st.store ∧
    (switchChat st cid).chats = st.chats ∧
    (switchChat st cid).ongoing = st.ongoing ∧
    (switchChat st cid).systemPrompt = st.systemPrompt ∧
    (match st.store.getChat cid with
     | some c => (switchChat st cid).activeChat = some c ∧
         (switchChat st cid).messages = st.store.getMessages cid
     | none => switchChat st cid = st) := by
  cases hg : st.store.getChat cid with
  | none =>
    have : switchChat st cid = st := by
      simp only [switchChat, hg]
    rw [this]
    exact ⟨rfl, rfl, rfl, rfl, rfl⟩
  | some c =>
    obtain ⟨hcmem, hcid⟩ := getChat_found st.store cid c hg
    have heq : switchChat st cid
        = { st with
            activeChat := some { c with model := c.model },
            messages := st.store.getMessages cid,
            currentModel := c.model,
            store := st.store.updateChatModel (c.id.getD 0) c.model } := by
      simp only [switchChat, hg, switchModel]
    have hstore : st.store.updateChatModel (c.id.getD 0) c.model = st.store := by
      have hmap : st.store.chats.map
          (fun c2 => if c2.id == some (c.id.getD 0) then { c2 with model := c.model } else c2)
          = st.store.chats := by
        have := List.map_congr_left (l := st.store.chats)
          (f := fun c2 => if c2.id == some (c.id.getD 0) then { c2 with model := c.model } else c2)
          (g := id)
          (fun c2 hc2 => by
            by_cases hb : (c2.id == some (c.id.getD 0)) = true
            · have hceq : c2 = c := by
                apply chat_eq_of_id_eq st.store.chats hd c2 c hc2 hcmem
                rw [eq_of_beq hb, hcid]
                rfl
              subst hceq
              simp
            · have hb2 : (c2.id == some (c.id.getD 0)) = false := by
                revert hb; cases (c2.id == some (c.id.getD 0)) <;> simp
              simp [hb2])
        simpa using this
      simp only [Store.updateChatModel, hmap]
    rw [heq]
    exact ⟨hstore, rfl, rfl, rfl, rfl, rfl⟩

/-- Unfolding of the active-membership predicate. -/
theorem ActiveMem_iff (st : EngineState) :
    ActiveMem st ↔ ∀ a, st.activeChat = some a → a ∈ st.chats := by
  show (match st.activeChat with
        | some a => a ∈ st.chats
        | none => True) ↔ _
  cases hA : st.activeChat with
  | none => simp
  | some a =>
    constructor
    · intro h a2 ha2
      cases Option.some.inj ha2
      exact h
    · intro h
      exact h a rfl

/-- Unfolding of the visible-messages predicate. -/
theorem MessagesSynced_iff (st : EngineState) :
    MessagesSynced st ↔
      ((∀ a, st.activeChat = some a → ∀ m ∈ st.messages, some m.chatId = a.id) ∧
       (st.activeChat = none → st.messages = [])) := by
  show (match st.activeChat with
        | some a => ∀ m ∈ st.messages, some m.chatId = a.id
        | none => st.messages = []) ↔ _
  cases hA : st.activeChat with
  | none =>
    constructor
    · intro h
      refine ⟨fun a ha => ?_, fun _ => h⟩
      exact absurd ha (by simp)
    · intro h
      exact h.2 rfl
  | some a =>
    constructor
    · intro h
      refine ⟨fun a2 ha2 => ?_, fun hn => by cases hn⟩
      cases Option.some.inj ha2
      exact h
    · intro h
      exact h.1 a rfl

/-- startNewChat establishes the engine invariant from list/store sync, valid keys and distinct keys. -/
theorem startNewChat_inv (st : EngineState) (name : String)
    (hs : ChatsSynced st) (hv : ChatIdsValid st) (hd : ChatIdsNodup st) :
    EngineInv (startNewChat st name) := by
  obtain ⟨f1, f2, f3, f4, _, _⟩ := startNewChat_spec st name
  refine ⟨?_, ?_, ?_, ?_⟩
  · show (startNewChat st name).chats = (startNewChat st name).store.chats
    rw [f1, f2, hs]
  · intro c hc
    rw [f2] at hc
    rw [f3]
    rcases List.mem_append.1 hc with h | h
    · rcases hv c h with ⟨h1, h2⟩
      exact ⟨h1, by omega⟩
    · simp only [List.mem_singleton] at h
      subst h
      exact ⟨by simp, by simp⟩
  · show ((startNewChat st name).store.chats.map Chat.id).Nodup
    rw [f2, List.map_append, List.nodup_append]
    refine ⟨hd, by simp, ?_⟩
    intro x hx
    simp only [List.mem_map] at hx
    rcases hx with ⟨c, hc, hxc⟩
    rcases hv c hc with ⟨h1, h2⟩
    rcases Option.isSome_iff_exists.1 h1 with ⟨k, hk⟩
    rw [hk] at hxc
    rw [hk] at h2
    simp only [Option.getD_some] at h2
    simp only [List.map_cons, List.map_nil]
    intro hmem
    simp only [List.mem_singleton] at hmem
    rw [hmem] at hxc
    have : k = st.store.nextChatId := Option.some.inj hxc
    omega
  · rw [ActiveMem_iff]
    intro a ha
    rw [f4] at ha
    cases Option.some.inj ha
    rw [f1]
    exact List.mem_append_right _ (by simp)

/-- switchChat preserves the engine invariant. -/
theorem switchChat_inv (st : EngineState) (cid : Nat) (hInv : EngineInv st) :
    EngineInv (switchChat st cid) := by
  obtain ⟨hs, hv, hd, ha⟩ := hInv
  obtain ⟨s1, s2, _, _, s5⟩ := switchChat_spec st cid hs hd
  refine ⟨?_, ?_, ?_, ?_⟩
  · show (switchChat st cid).chats = (switchChat st cid).store.chats
    rw [s1, s2]
    exact hs
  · intro c hc
    rw [s1] at hc
    rw [s1]
    exact hv c hc
  · show ((switchChat st cid).store.chats.map Chat.id).Nodup
    rw [s1]
    exact hd
  · rw [ActiveMem_iff]
    intro a ha2
    rw [s2]
    cases hg : st.store.getChat cid with
    | none =>
      rw [hg] at s5
      simp only at s5
      rw [s5] at ha2
      exact (ActiveMem_iff st).1 ha a ha2
    | some c =>
      rw [hg] at s5
      simp only at s5
      rw [s5.1] at ha2
      have hac : c = a := Option.some.inj ha2
      rw [hs, ← hac]
      exact (getChat_found st.store cid c hg).1

/-- Unfolding of deleteChat into the purge step followed by the reactivation branch. -/
theorem deleteChat_st1 (st : EngineState) (cid : Nat) :
    deleteChat st cid =
      (if st.activeChat.bind Chat.id == some cid then
        match sortedChats (st.chats.filter (fun c => c.id != some cid)) with
        | c0 :: _ =>
          switchChat
            { st with
              store := (st.store.deleteChat cid).deleteMessagesOfChat cid,
              chats := st.chats.filter (fun c => c.id != some cid) }
            (c0.id.getD 0)
        | [] =>
          startNewChat
            { st with
              store := (st.store.deleteChat cid).deleteMessagesOfChat cid,
              chats := st.chats.filter (fun c => c.id != some cid) }
            "New chat"
      else
        { st with
          store := (st.store.deleteChat cid).deleteMessagesOfChat cid,
          chats := st.chats.filter (fun c => c.id != some cid) }) := rfl

/-- deleteChat preserves the engine invariant. -/
theorem deleteChat_inv (st : EngineState) (cid : Nat) (hInv : EngineInv st) :
    EngineInv (deleteChat st cid) := by
  obtain ⟨hs, hv, hd, ha⟩ := hInv
  set st1 : EngineState :=
    { st with
      store := (st.store.deleteChat cid).deleteMessagesOfChat cid,
      chats := st.chats.filter (fun c => c.id != some cid) } with hst1
  have h1s : ChatsSynced st1 := by
    show st.chats.filter (fun c => c.id != some cid)
        = st.store.chats.filter (fun c => c.id != some cid)
    rw [hs]
  have h1v : ChatIdsValid st1 := by
    intro c hc
    have hc2 : c ∈ st.store.chats := by
      have : c ∈ st.store.chats.filter (fun c => c.id != some cid) := hc
      exact List.mem_of_mem_filter this
    exact hv c hc2
  have h1d : ChatIdsNodup st1 := by
    show ((st.store.chats.filter (fun c => c.id != some cid)).map Chat.id).Nodup
    exact List.Nodup.sublist (List.Sublist.map Chat.id (List.filter_sublist _)) hd
  rw [deleteChat_st1]
  by_cases hcond : (st.activeChat.bind Chat.id == some cid) = true
  · rw [if_pos hcond]
    cases hsort : sortedChats (st.chats.filter (fun c => c.id != some cid)) with
    | nil =>
      exact startNewChat_inv st1 "New chat" h1s h1v h1d
    | cons c0 rest =>
      have hc0mem : c0 ∈ st1.chats := by
        have : c0 ∈ sortedChats (st.chats.filter (fun c => c.id != some cid)) := by
          rw [hsort]; simp
        exact (mem_sortedChats _ c0).1 this
      have hc0store : c0 ∈ st1.store.chats := by
        rw [← h1s]; exact hc0mem
      rcases h1v c0 hc0store with ⟨hi1, hi2⟩
      rcases Option.isSome_iff_exists.1 hi1 with ⟨n0, hn0⟩
      have hfound := getChat_isSome st1.store (c0.id.getD 0) c0 hc0store
        (by rw [hn0]; rfl)
      rcases Option.isSome_iff_exists.1 hfound with ⟨c2, hc2⟩
      obtain ⟨s1, s2, _, _, s5⟩ := switchChat_spec st1 (c0.id.getD 0) h1s h1d
      rw [hc2] at s5
      simp only at s5
      refine ⟨?_, ?_, ?_, ?_⟩
      · show _ = _
        rw [s1, s2]
        exact h1s
      · intro c hc
        rw [s1] at hc
        rw [s1]
        exact h1v c hc
      · show ((switchChat st1 (c0.id.getD 0)).store.chats.map Chat.id).Nodup
        rw [s1]
        exact h1d
      · rw [ActiveMem_iff]
        intro a2 ha2
        rw [s5.1] at ha2
        have hac : c2 = a2 := Option.some.inj ha2
        rw [s2, h1s, ← hac]
        exact (getChat_found st1.store (c0.id.getD 0) c2 hc2).1
  · rw [if_neg hcond]
    refine ⟨h1s, h1v, h1d, ?_⟩
    rw [ActiveMem_iff]
    intro a2 ha2
    have ha2' : st.activeChat = some a2 := ha2
    have hmem : a2 ∈ st.chats := (ActiveMem_iff st).1 ha a2 ha2'
    show a2 ∈ st.chats.filter (fun c => c.id != some cid)
    rw [List.mem_filter]
    refine ⟨hmem, ?_⟩
    have hbind : st.activeChat.bind Chat.id = a2.id := by rw [ha2']; rfl
    have hne : a2.id ≠ some cid := by
      intro hEq
      apply hcond
      rw [hbind, hEq]
      simp
    simp only [bne_iff_ne, ne_eq]
    exact hne

/-- Every chat-lifecycle operation preserves the engine invariant. -/
theorem applyOp_inv (st : EngineState) (op : ChatOp) (h : EngineInv st) :
    EngineInv (applyOp st op) := by
  cases op with
  | newChat name => exact startNewChat_inv st name h.1 h.2.1 h.2.2.1
  | switchTo cid => exact switchChat_inv st cid h
  | delete cid => exact deleteChat_inv st cid h

/-- Every sequence of chat-lifecycle operations preserves the engine invariant. -/
theorem applyOps_inv (ops : List ChatOp) :
    ∀ st : EngineState, EngineInv st → EngineInv (applyOps st ops) := by
  induction ops with
  | nil => exact fun st h => h
  | cons op rest ih =>
    intro st h
    exact ih (applyOp st op) (applyOp_inv st op h)

/-- Claim C4: for every sequence of startNewChat/switchChat/deleteChat operations applied to a reachable state — characterized by the machine-checked invariant EngineInv, which initEngine establishes (see initEngine_establishes_inv) and every lifecycle operation preserves — the active chat, whenever non-null, is an element of the in-memory chat list. -/
theorem claim4_active_in_list (st : EngineState) (ops : List ChatOp)
    (h : EngineInv st) :
    ∀ a : Chat, (applyOps st ops).activeChat = some a → a ∈ (applyOps st ops).chats := by
  have hInv := applyOps_inv ops st h
  exact (ActiveMem_iff (applyOps st ops)).1 hInv.2.2.2

/-- Witness for claim C4: after deleting the active chat, starting a chat and switching, the active chat is in the list. -/
theorem claim4_witness :
    ({ id := some 2, name := "New chat", model := "m", createdAt := 10 } : Chat)
      ∈ (applyOps exState [ChatOp.delete 1, ChatOp.newChat "B", ChatOp.switchTo 2]).chats := by
  exact claim4_active_in_list exState [ChatOp.delete 1, ChatOp.newChat "B", ChatOp.switchTo 2]
    (by decide) { id := some 2, name := "New chat", model := "m", createdAt := 10 } (by decide)

/-- Claim C7: deleteChat removes the chat and every message whose chatId references it from the store and from the in-memory lists, leaving no dangling chatId; if the deleted chat was active, a remaining chat with maximal createdAt (the head of the sorted view) becomes active, or a fresh chat named New chat with the next store key is started when none remain. -/
theorem claim7_delete_chat (st : EngineState) (cid : Nat)
    (hInv : EngineInv st) (hms : MessagesSynced st) :
    (∀ c ∈ (deleteChat st cid).store.chats, c.id ≠ some cid) ∧
    (∀ m ∈ (deleteChat st cid).store.messages, m.chatId ≠ cid) ∧
    (∀ c ∈ (deleteChat st cid).chats, c.id ≠ some cid) ∧
    (∀ m ∈ (deleteChat st cid).messages, m.chatId ≠ cid) ∧
    (∀ a : Chat, st.activeChat = some a → a.id = some cid →
      ((st.chats.filter (fun c => c.id != some cid) ≠ []) →
        ∃ a2 : Chat, (deleteChat st cid).activeChat = some a2 ∧
          a2 ∈ st.chats.filter (fun c => c.id != some cid) ∧
          ∀ c ∈ st.chats.filter (fun c => c.id != some cid),
            c.createdAt ≤ a2.createdAt) ∧
      ((st.chats.filter (fun c => c.id != some cid) = []) →
        ∃ a2 : Chat, (deleteChat st cid).activeChat = some a2 ∧
          a2.name = "New chat" ∧ a2.id = some st.store.nextChatId)) := by
  obtain ⟨hs, hv, hd, ha⟩ := hInv
  set st1 : EngineState :=
    { st with
      store := (st.store.deleteChat cid).deleteMessagesOfChat cid,
      chats := st.chats.filter (fun c => c.id != some cid) } with hst1
  have h1s : ChatsSynced st1 := by
    show st.chats.filter (fun c => c.id != some cid)
        = st.store.chats.filter (fun c => c.id != some cid)
    rw [hs]
  have h1v : ChatIdsValid st1 := by
    intro c hc
    have hc2 : c ∈ st.store.chats := by
      have : c ∈ st.store.chats.filter (fun c => c.id != some cid) := hc
      exact List.mem_of_mem_filter this
    exact hv c hc2
  have h1d : ChatIdsNodup st1 := by
    show ((st.store.chats.filter (fun c => c.id != some cid)).map Chat.id).Nodup
    exact List.Nodup.sublist (List.Sublist.map Chat.id (List.filter_sublist _)) hd
  have hm1 : ∀ m ∈ st1.store.messages, m.chatId ≠ cid := by
    intro m hm
    have hm2 : m ∈ st.store.messages.filter (fun m => m.chatId != cid) := hm
    have := (List.mem_filter.1 hm2).2
    simpa using this
  have hc1 : ∀ c ∈ st1.store.chats, c.id ≠ some cid := by
    intro c hc
    have hc2 : c ∈ st.store.chats.filter (fun c => c.id != some cid) := hc
    have := (List.mem_filter.1 hc2).2
    simpa using this
  rw [deleteChat_st1]
  by_cases hcond : (st.activeChat.bind Chat.id == some cid) = true
  · have hlt : cid < st.store.nextChatId := by
      cases hA : st.activeChat with
      | none =>
        rw [hA] at hcond
        simp at hcond
      | some a =>
        rw [hA] at hcond
        have haid : a.id = some cid := by
          have : a.id == some cid := hcond
          exact eq_of_beq this
        have hamem : a ∈ st.chats := (ActiveMem_iff st).1 ha a hA
        rw [hs] at hamem
        rcases hv a hamem with ⟨h1, h2⟩
        rw [haid] at h2
        simpa using h2
    rw [if_pos hcond]
    cases hsort : sortedChats (st.chats.filter (fun c => c.id != some cid)) with
    | nil =>
      have hfil : st.chats.filter (fun c => c.id != some cid) = [] :=
        (sortedChats_nil_iff _).1 hsort
      obtain ⟨f1, f2, f3, f4, f5, f6⟩ := startNewChat_spec st1 "New chat"
      have hnext : st1.store.nextChatId = st.store.nextChatId := rfl
      refine ⟨?_, ?_, ?_, ?_, ?_⟩
      · intro c hc
        rw [f2] at hc
        rcases List.mem_append.1 hc with h | h
        · exact hc1 c h
        · simp only [List.mem_singleton] at h
          subst h
          simp only [ne_eq, Option.some.injEq]
          rw [hnext]
          omega
      · intro m hm
        rcases f6 m hm with h | h
        · exact hm1 m h
        · rw [hnext] at h
          omega
      · intro c hc
        rw [f1] at hc
        rcases List.mem_append.1 hc with h | h
        · have hc2 : c ∈ st.chats.filter (fun c => c.id != some cid) := h
          have := (List.mem_filter.1 hc2).2
          simpa using this
        · simp only [List.mem_singleton] at h
          subst h
          simp only [ne_eq, Option.some.injEq]
          rw [hnext]
          omega
      · intro m hm
        have := f5 m hm
        rw [hnext] at this
        omega
      · intro a hA hAid
        constructor
        · intro hne
          exact absurd hfil hne
        · intro _
          refine ⟨{ id := some st1.store.nextChatId, name := "New chat",
                    model := st1.currentModel, createdAt := st1.now }, f4, rfl, ?_⟩
          rw [hnext]
    | cons c0 rest =>
      have hfilne : st.chats.filter (fun c => c.id != some cid) ≠ [] := by
        intro h0
        rw [h0] at hsort
        simp [sortedChats] at hsort
      have hc0mem : c0 ∈ st1.chats := by
        have : c0 ∈ sortedChats (st.chats.filter (fun c => c.id != some cid)) := by
          rw [hsort]; simp
        exact (mem_sortedChats _ c0).1 this
      have hc0store : c0 ∈ st1.store.chats := by
        rw [← h1s]; exact hc0mem
      rcases h1v c0 hc0store with ⟨hi1, hi2⟩
      rcases Option.isSome_iff_exists.1 hi1 with ⟨n0, hn0⟩
      have hfound := getChat_isSome st1.store (c0.id.getD 0) c0 hc0store
        (by rw [hn0]; rfl)
      rcases Option.isSome_iff_exists.1 hfound with ⟨c2, hc2⟩
      obtain ⟨s1, s2, _, _, s5⟩ := switchChat_spec st1 (c0.id.getD 0) h1s h1d
      rw [hc2] at s5
      simp only at s5
      obtain ⟨hc2mem, hc2id⟩ := getChat_found st1.store (c0.id.getD 0) c2 hc2
      have hc2eq : c2 = c0 := by
        apply chat_eq_of_id_eq st1.store.chats h1d c2 c0 hc2mem hc0store
        rw [hc2id, hn0]
        rfl
      refine ⟨?_, ?_, ?_, ?_, ?_⟩
      · intro c hc
        rw [s1] at hc
        exact hc1 c hc
      · intro m hm
        rw [s1] at hm
        exact hm1 m hm
      · intro c hc
        rw [s2] at hc
        have hc3 : c ∈ st.chats.filter (fun c => c.id != some cid) := hc
        have := (List.mem_filter.1 hc3).2
        simpa using this
      · intro m hm
        rw [s5.2] at hm
        have hm2 : m ∈ st1.store.messages := List.mem_of_mem_filter hm
        exact hm1 m hm2
      · intro a hA hAid
        constructor
        · intro _
          refine ⟨c2, s5.1, ?_, ?_⟩
          · rw [hc2eq]
            exact hc0mem
          · intro c hc
            rw [hc2eq]
            exact sortedChats_head_max _ c0 rest hsort c hc
        · intro hfil
          exact absurd hfil hfilne
  · rw [if_neg hcond]
    refine ⟨hc1, hm1, ?_, ?_, ?_⟩
    · intro c hc
      have hc2 : c ∈ st.chats.filter (fun c => c.id != some cid) := hc
      have := (List.mem_filter.1 hc2).2
      simpa using this
    · intro m hm
      have hm2 : m ∈ st.messages := hm
      cases hA : st.activeChat with
      | none =>
        have := (MessagesSynced_iff st).1 hms
        rw [this.2 hA] at hm2
        cases hm2
      | some a =>
        have hsync := (MessagesSynced_iff st).1 hms
        have hchat := hsync.1 a hA m hm2
        intro hEq
        apply hcond
        rw [hA]
        show (a.id == some cid) = true
        rw [← hchat, hEq]
        simp
    · intro a hA hAid
      exfalso
      apply hcond
      rw [hA]
      show (a.id == some cid) = true
      rw [hAid]
      simp

/-- Re-persisting a bundle's messages appends copies under the new chat id, preserving roles, contents and order. -/
theorem importMessages_spec (ms : List Message) :
    ∀ (s : Store) (cid : Nat),
    (importMessages s cid ms).chats = s.chats ∧
    (importMessages s cid ms).nextChatId = s.nextChatId ∧
    ∃ tail : List Message,
      (importMessages s cid ms).messages = s.messages ++ tail ∧
      (∀ m ∈ tail, m.chatId = cid) ∧
      tail.map (fun m => (m.role, m.content)) = ms.map (fun m => (m.role, m.content)) := by
  induction ms with
  | nil =>
    intro s cid
    exact ⟨rfl, rfl, [], by simp [importMessages], by simp, rfl⟩
  | cons m ms ih =>
    intro s cid
    have hstep : importMessages s cid (m :: ms)
        = importMessages (s.addMessage
            { id := none, chatId := cid, role := m.role,
              content := m.content, createdAt := m.createdAt }).1 cid ms := rfl
    obtain ⟨i1, i2, tail, i3, i4, i5⟩ := ih (s.addMessage
      { id := none, chatId := cid, role := m.role,
        content := m.content, createdAt := m.createdAt }).1 cid
    refine ⟨?_, ?_, ?_⟩
    · rw [hstep, i1]
      simp [Store.addMessage]
    · rw [hstep, i2]
      simp [Store.addMessage]
    · refine ⟨{ id := some s.nextMessageId, chatId := cid, role := m.role,
                content := m.content, createdAt := m.createdAt } :: tail, ?_, ?_, ?_⟩
      · rw [hstep, i3]
        show (s.messages ++ [_]) ++ tail = s.messages ++ _
        rw [List.append_assoc]
        rfl
      · intro m2 hm2
        rcases List.mem_cons.1 hm2 with h | h
        · rw [h]
        · exact i4 m2 h
      · simp only [List.map_cons, i5]

/-- Importing one bundle with a createdAt appends one chat under the fresh key and appends copies of the bundle's messages under it. -/
theorem importOne_spec (st : EngineState) (b : ChatExport) (ts : Nat)
    (hts : b.createdAt = some ts) :
    ∃ st2 : EngineState, importOne st b = some st2 ∧
      st2.store.chats = st.store.chats
        ++ [{ id := some st.store.nextChatId, name := b.name,
              model := b.model, createdAt := ts }] ∧
      st2.store.nextChatId = st.store.nextChatId + 1 ∧
      (∃ tail : List Message,
        st2.store.messages = st.store.messages ++ tail ∧
        (∀ m ∈ tail, m.chatId = st.store.nextChatId) ∧
        tail.map (fun m => (m.role, m.content))
          = b.messages.map (fun m => (m.role, m.content))) := by
  have heq : importOne st b
      = some { st with
          store := importMessages
            (st.store.addChat
              { id := none, name := b.name, model := b.model, createdAt := ts }).1
            (st.store.addChat
              { id := none, name := b.name, model := b.model, createdAt := ts }).2
            b.messages,
          chats := st.chats
            ++ [{ id := some (st.store.addChat
                    { id := none, name := b.name, model := b.model, createdAt := ts }).2,
                  name := b.name, model := b.model, createdAt := ts }] } := by
    simp only [importOne, hts]
  obtain ⟨i1, i2, tail, i3, i4, i5⟩ := importMessages_spec b.messages
    (st.store.addChat { id := none, name := b.name, model := b.model, createdAt := ts }).1
    (st.store.addChat { id := none, name := b.name, model := b.model, createdAt := ts }).2
  refine ⟨_, heq, ?_, ?_, ⟨tail, ?_, ?_, i5⟩⟩
  · show (importMessages _ _ _).chats = _
    rw [i1]
    simp [Store.addChat]
  · show (importMessages _ _ _).nextChatId = _
    rw [i2]
    simp [Store.addChat]
  · show (importMessages _ _ _).messages = _
    rw [i3]
    simp [Store.addChat]
  · intro m hm
    have := i4 m hm
    rw [this]
    simp [Store.addChat]

/-- Importing a list of bundles that all carry a createdAt appends one chat per bundle with consecutive fresh keys, and the messages later retrieved for the j-th new key are exactly the j-th bundle's messages, with roles, contents and order preserved. -/
theorem importChats_spec (bundles : List ChatExport) :
    ∀ st : EngineState,
    (∀ b ∈ bundles, ∃ ts, b.createdAt = some ts) →
    (∀ m ∈ st.store.messages, m.chatId < st.store.nextChatId) →
    (importChats st bundles).2 = false ∧
    (importChats st bundles).1.store.nextChatId
      = st.store.nextChatId + bundles.length ∧
    (∃ newChats : List Chat,
      (importChats st bundles).1.store.chats = st.store.chats ++ newChats ∧
      newChats.length = bundles.length ∧
      (∀ j : Nat, ∀ b : ChatExport, bundles.get? j = some b →
        ∃ cNew : Chat, newChats.get? j = some cNew ∧
          cNew.id = some (st.store.nextChatId + j) ∧
          cNew.name = b.name ∧ cNew.model = b.model ∧
          b.createdAt = some cNew.createdAt)) ∧
    (∃ mtail : List Message,
      (importChats st bundles).1.store.messages = st.store.messages ++ mtail ∧
      ∀ m ∈ mtail, st.store.nextChatId ≤ m.chatId ∧
        m.chatId < (importChats st bundles).1.store.nextChatId) ∧
    (∀ j : Nat, ∀ b : ChatExport, bundles.get? j = some b →
      ((importChats st bundles).1.store.getMessages (st.store.nextChatId + j)).map
          (fun m => (m.role, m.content))
        = b.messages.map (fun m => (m.role, m.content))) := by
  induction bundles with
  | nil =>
    intro st hall hmsg
    refine ⟨rfl, by simp [importChats], ⟨[], by simp [importChats], rfl, ?_⟩,
      ⟨[], by simp [importChats], by simp⟩, ?_⟩
    · intro j b hb
      simp at hb
    · intro j b hb
      simp at hb
  | cons b rest ih =>
    intro st hall hmsg
    obtain ⟨ts, hts⟩ := hall b (List.mem_cons_self b rest)
    obtain ⟨st2, hio, o1, o2, tail, o3, o4, o5⟩ := importOne_spec st b ts hts
    have hstep : importChats st (b :: rest) = importChats st2 rest := by
      simp only [importChats, List.foldl_cons, hio]
    have hall2 : ∀ b2 ∈ rest, ∃ ts2, b2.createdAt = some ts2 :=
      fun b2 hb2 => hall b2 (List.mem_cons_of_mem b hb2)
    have hmsg2 : ∀ m ∈ st2.store.messages, m.chatId < st2.store.nextChatId := by
      intro m hm
      rw [o3] at hm
      rw [o2]
      rcases List.mem_append.1 hm with h | h
      · have := hmsg m h
        omega
      · have := o4 m h
        omega
    obtain ⟨r1, r2, ⟨newChats2, q1, q2, q3⟩, ⟨mtail2, p1, p2⟩, r5⟩ := ih st2 hall2 hmsg2
    refine ⟨?_, ?_, ?_, ?_, ?_⟩
    · rw [hstep]
      exact r1
    · rw [hstep, r2, o2]
      simp only [List.length_cons]
      omega
    · refine ⟨{ id := some st.store.nextChatId, name := b.name,
                model := b.model, createdAt := ts } :: newChats2, ?_, ?_, ?_⟩
      · rw [hstep, q1, o1, List.append_assoc]
        rfl
      · simp [q2]
      · intro j b2 hb2
        cases j with
        | zero =>
          simp only [List.get?] at hb2
          have hb2' : b = b2 := Option.some.inj hb2
          subst hb2'
          refine ⟨_, rfl, ?_, rfl, rfl, ?_⟩
          · simp
          · rw [hts]
        | succ j =>
          have hb2' : rest.get? j = some b2 := hb2
          obtain ⟨cNew, hq1, hq2, hq3, hq4, hq5⟩ := q3 j b2 hb2'
          refine ⟨cNew, hq1, ?_, hq3, hq4, hq5⟩
          rw [hq2, o2]
          have : st.store.nextChatId + 1 + j = st.store.nextChatId + (j + 1) := by omega
          rw [this]
    · refine ⟨tail ++ mtail2, ?_, ?_⟩
      · rw [hstep, p1, o3, List.append_assoc]
      · intro m hm
        rw [hstep, r2, o2]
        rcases List.mem_append.1 hm with h | h
        · have := o4 m h
          omega
        · have := p2 m h
          rw [o2] at this
          omega
    · intro j b2 hb2
      cases j with
      | zero =>
        simp only [List.get?] at hb2
        have hb2' : b = b2 := Option.some.inj hb2
        subst hb2'
        rw [hstep]
        have hmsgs : (importChats st2 rest).1.store.messages
            = (st.store.messages ++ tail) ++ mtail2 := by
          rw [p1, o3]
        show ((importChats st2 rest).1.store.messages.filter
            (fun m => m.chatId == st.store.nextChatId + 0)).map (fun m => (m.role, m.content))
          = _
        rw [hmsgs]
        rw [List.filter_append, List.filter_append]
        have hf1 : st.store.messages.filter
            (fun m => m.chatId == st.store.nextChatId + 0) = [] := by
          rw [List.filter_eq_nil_iff]
          intro m hm
          have := hmsg m hm
          simp only [beq_iff_eq]
          omega
        have hf2 : tail.filter (fun m => m.chatId == st.store.nextChatId + 0) = tail := by
          rw [List.filter_eq_self]
          intro m hm
          have := o4 m hm
          simp only [beq_iff_eq]
          omega
        have hf3 : mtail2.filter (fun m => m.chatId == st.store.nextChatId + 0) = [] := by
          rw [List.filter_eq_nil_iff]
          intro m hm
          have := p2 m hm
          rw [o2] at this
          simp only [beq_iff_eq]
          omega
        rw [hf1, hf2, hf3]
        simp only [List.nil_append, List.append_nil]
        exact o5
      | succ j =>
        have hb2' : rest.get? j = some b2 := hb2
        have := r5 j b2 hb2'
        rw [hstep]
        rw [o2] at this
        have harith : st.store.nextChatId + 1 + j = st.store.nextChatId + (j + 1) := by omega
        rw [harith] at this
        exact this

/-- A filterMap whose function is total on the list is a map. -/
theorem filterMap_eq_map_of {α β : Type} (f : α → Option β) (g : α → β) :
    ∀ l : List α, (∀ a ∈ l, f a = some (g a)) → l.filterMap f = l.map g := by
  intro l
  induction l with
  | nil => intro _; rfl
  | cons a rest ih =>
    intro h
    rw [List.filterMap_cons, h a (List.mem_cons_self a rest), List.map_cons,
      ih (fun a2 ha2 => h a2 (List.mem_cons_of_mem a ha2))]

/-- On a store whose chats all carry positive keys, exportChats bundles every chat with its messages, in order. -/
theorem exportChats_spec (s : Store)
    (h1 : ∀ c ∈ s.chats, c.id.isSome = true ∧ 0 < c.id.getD 0) :
    exportChats s = s.chats.map (fun c =>
      { id := c.id, name := c.name, model := c.model,
        createdAt := some c.createdAt, messages := s.getMessages (c.id.getD 0) }) := by
  apply filterMap_eq_map_of
  intro c hc
  rcases h1 c hc with ⟨hi, hpos⟩
  rcases Option.isSome_iff_exists.1 hi with ⟨n, hn⟩
  rw [hn] at hpos
  simp only [Option.getD_some] at hpos
  simp only [hn]
  rw [if_neg (by omega)]
  simp [Option.getD_some]

/-- Claim C3: running exportChats and then importChats on its result preserves the original chats as a prefix and adds exactly one new chat per exported chat; the new chat matching the j-th original carries its name, model and createdAt, and the messages retrieved for the new chat's fresh key equal the original chat's messages in role, content and order (store-assigned ids differ). -/
theorem claim3_export_import_roundtrip (st : EngineState)
    (h1 : ∀ c ∈ st.store.chats, c.id.isSome = true ∧ 0 < c.id.getD 0)
    (h2 : ∀ m ∈ st.store.messages, m.chatId < st.store.nextChatId) :
    (importChats st (exportChats st.store)).2 = false ∧
    (exportChats st.store).length = st.store.chats.length ∧
    (importChats st (exportChats st.store)).1.store.chats.take st.store.chats.length
      = st.store.chats ∧
    (importChats st (exportChats st.store)).1.store.chats.length
      = st.store.chats.length + st.store.chats.length ∧
    (∀ j : Nat, ∀ c : Chat, st.store.chats.get? j = some c →
      ∃ cNew : Chat,
        (importChats st (exportChats st.store)).1.store.chats.get?
            (st.store.chats.length + j) = some cNew ∧
        cNew.id = some (st.store.nextChatId + j) ∧
        cNew.name = c.name ∧ cNew.model = c.model ∧ cNew.createdAt = c.createdAt ∧
        ((importChats st (exportChats st.store)).1.store.getMessages
            (st.store.nextChatId + j)).map (fun m => (m.role, m.content))
          = (st.store.getMessages (c.id.getD 0)).map (fun m => (m.role, m.content))) := by
  have hexp := exportChats_spec st.store h1
  have hlen : (exportChats st.store).length = st.store.chats.length := by
    rw [hexp, List.length_map]
  have hall : ∀ b ∈ exportChats st.store, ∃ ts, b.createdAt = some ts := by
    intro b hb
    rw [hexp] at hb
    rcases List.mem_map.1 hb with ⟨c, _, hcb⟩
    exact ⟨c.createdAt, by rw [← hcb]⟩
  obtain ⟨r1, r2, ⟨newChats, q1, q2, q3⟩, ⟨mtail, p1, p2⟩, r5⟩ :=
    importChats_spec (exportChats st.store) st hall h2
  refine ⟨r1, hlen, ?_, ?_, ?_⟩
  · rw [q1]
    exact List.take_left st.store.chats newChats
  · rw [q1, List.length_append, q2, hlen]
  · intro j c hc
    have hj : (exportChats st.store).get? j
        = some { id := c.id, name := c.name, model := c.model,
                 createdAt := some c.createdAt,
                 messages := st.store.getMessages (c.id.getD 0) } := by
      rw [hexp, List.get?_map, hc]
      rfl
    obtain ⟨cNew, hq1, hq2, hq3, hq4, hq5⟩ := q3 j _ hj
    have hmsgs := r5 j _ hj
    refine ⟨cNew, ?_, hq2, hq3, hq4, ?_, hmsgs⟩
    · rw [q1, List.get?_append_right (by omega)]
      have : st.store.chats.length + j - st.store.chats.length = j := by omega
      rw [this]
      exact hq1
    · have : some c.createdAt = some cNew.createdAt := hq5
      exact (Option.some.inj this).symm

/-- Witness for claim C7: deleting the active chat at a two-chat state activates the remaining chat. -/
theorem claim7_witness :
    chatB.id ≠ some 1 ∧ (deleteChat exState2 1).activeChat = some chatB := by
  have h := claim7_delete_chat exState2 1 (by decide) (by decide)
  constructor
  · exact h.1 chatB (by decide)
  · rcases (h.2.2.2.2 exChat rfl rfl).1 (by decide) with ⟨a2, h1, h2, _⟩
    have hfil : exState2.chats.filter (fun c => c.id != some 1) = [chatB] := by decide
    rw [hfil] at h2
    have ha2 : a2 = chatB := List.mem_singleton.1 h2
    rw [← ha2]
    exact h1

/-- Witness for claim C3 at a concrete one-chat store. -/
theorem claim3_witness :
    (importChats exState (exportChats exState.store)).2 = false ∧
    (exportChats exState.store).length = 1 ∧
    (importChats exState (exportChats exState.store)).1.store.chats.take 1
      = exState.store.chats ∧
    (importChats exState (exportChats exState.store)).1.store.chats.length = 2 := by
  have h := claim3_export_import_roundtrip exState (by decide) (by decide)
  exact ⟨h.1, h.2.1, h.2.2.1, h.2.2.2.1⟩

/-- The initialize() operation establishes the engine invariant from any store with valid, distinct chat keys. -/
theorem initEngine_establishes_inv (st : EngineState)
    (hv : ∀ c ∈ st.store.chats, c.id.isSome = true ∧ c.id.getD 0 < st.store.nextChatId)
    (hd : (st.store.chats.map Chat.id).Nodup) :
    EngineInv (initEngine st) := by
  set st1 : EngineState := { st with chats := st.store.chats } with hst1
  have h1s : ChatsSynced st1 := rfl
  have h1v : ChatIdsValid st1 := hv
  have h1d : ChatIdsNodup st1 := hd
  show EngineInv
    (match sortedChats st1.chats with
     | c :: _ => switchChat st1 (c.id.getD 0)
     | [] => startNewChat st1 "New chat")
  cases hsort : sortedChats st1.chats with
  | nil => exact startNewChat_inv st1 "New chat" h1s h1v h1d
  | cons c0 rest =>
    have hc0mem : c0 ∈ st1.chats := by
      have : c0 ∈ sortedChats st1.chats := by rw [hsort]; simp
      exact (mem_sortedChats _ c0).1 this
    have hc0store : c0 ∈ st1.store.chats := hc0mem
    rcases h1v c0 hc0store with ⟨hi1, hi2⟩
    rcases Option.isSome_iff_exists.1 hi1 with ⟨n0, hn0⟩
    have hfound := getChat_isSome st1.store (c0.id.getD 0) c0 hc0store
      (by rw [hn0]; rfl)
    rcases Option.isSome_iff_exists.1 hfound with ⟨c2, hc2⟩
    obtain ⟨s1, s2, _, _, s5⟩ := switchChat_spec st1 (c0.id.getD 0) h1s h1d
    rw [hc2] at s5
    simp only at s5
    refine ⟨?_, ?_, ?_, ?_⟩
    · show _ = _
      rw [s1, s2]
    · intro c hc
      rw [s1] at hc
      rw [s1]
      exact h1v c hc
    · show ((switchChat st1 (c0.id.getD 0)).store.chats.map Chat.id).Nodup
      rw [s1]
      exact h1d
    · rw [ActiveMem_iff]
      intro a2 ha2
      rw [s5.1] at ha2
      have hac : c2 = a2 := Option.some.inj ha2
      rw [s2, ← hac]
      exact (getChat_found st1.store (c0.id.getD 0) c2 hc2).1

end OllamaGui
